import Mathlib

/-!
Verification development for the client-side statistics and chart-data
engine of the drs-react-engine repository (the CSV parser, column profiler,
regression engine, Monte Carlo engine, outlier detector, visual data
preparer and metric calculator of `src/types.ts`).

The JavaScript number type is embedded as exact rationals extended with
NaN and signed infinities (`JsNum`); binary-floating-point rounding is not
modelled, and the transcendental library functions (`Math.sqrt`,
`Math.log`, `Math.cos`), `Date.parse` and `String.prototype.localeCompare`
— all implementation- or locale-dependent built-ins — are parameters of
the model, collected in `JsEnv`.
-/

set_option maxRecDepth 8000

/-- A JavaScript number: an exact rational, NaN, or a signed infinity
(`inf true` is `+Infinity`).  Negative zero is identified with zero. -/
inductive JsNum where
  | fin : ℚ → JsNum
  | nan : JsNum
  | inf : Bool → JsNum
deriving DecidableEq, Repr

/-- JavaScript addition on numbers. -/
def JsNum.add : JsNum → JsNum → JsNum
  | .nan, _ => .nan
  | _, .nan => .nan
  | .inf s, .inf t => if s = t then .inf s else .nan
  | .inf s, .fin _ => .inf s
  | .fin _, .inf s => .inf s
  | .fin a, .fin b => .fin (a + b)

/-- JavaScript negation. -/
def JsNum.neg : JsNum → JsNum
  | .nan => .nan
  | .inf s => .inf (!s)
  | .fin a => .fin (-a)

/-- JavaScript subtraction. -/
def JsNum.sub (a b : JsNum) : JsNum := a.add b.neg

/-- JavaScript multiplication (`0 * Infinity` is NaN). -/
def JsNum.mul : JsNum → JsNum → JsNum
  | .nan, _ => .nan
  | _, .nan => .nan
  | .inf s, .inf t => .inf (s = t)
  | .inf s, .fin b => if b = 0 then .nan else .inf (s = decide (0 < b))
  | .fin b, .inf s => if b = 0 then .nan else .inf (s = decide (0 < b))
  | .fin a, .fin b => .fin (a * b)

/-- JavaScript division (`0/0` is NaN, `a/0` is a signed infinity for
nonzero `a`, `a/Infinity` is `0`). -/
def JsNum.div : JsNum → JsNum → JsNum
  | .nan, _ => .nan
  | _, .nan => .nan
  | .inf _, .inf _ => .nan
  | .inf s, .fin b => if b < 0 then .inf (!s) else .inf s
  | .fin _, .inf _ => .fin 0
  | .fin a, .fin b =>
    if b = 0 then (if a = 0 then .nan else .inf (decide (0 < a)))
    else .fin (a / b)

/-- JavaScript `<` on numbers (`false` whenever an operand is NaN). -/
def JsNum.ltB : JsNum → JsNum → Bool
  | .nan, _ => false
  | _, .nan => false
  | .fin a, .fin b => decide (a < b)
  | .inf s, .inf t => !s && t
  | .inf s, .fin _ => !s
  | .fin _, .inf t => t

/-- JavaScript `<=` on numbers (`false` whenever an operand is NaN). -/
def JsNum.leB : JsNum → JsNum → Bool
  | .nan, _ => false
  | _, .nan => false
  | .fin a, .fin b => decide (a ≤ b)
  | .inf s, .inf t => !s || t
  | .inf s, .fin _ => !s
  | .fin _, .inf t => t

/-- JavaScript `>` on numbers. -/
def JsNum.gtB (a b : JsNum) : Bool := JsNum.ltB b a

/-- `Math.min` of two numbers (NaN-propagating). -/
def JsNum.min2 : JsNum → JsNum → JsNum
  | .nan, _ => .nan
  | _, .nan => .nan
  | .inf true, b => b
  | a, .inf true => a
  | .inf false, _ => .inf false
  | _, .inf false => .inf false
  | .fin a, .fin b => .fin (min a b)

/-- `Math.max` of two numbers (NaN-propagating). -/
def JsNum.max2 : JsNum → JsNum → JsNum
  | .nan, _ => .nan
  | _, .nan => .nan
  | .inf false, b => b
  | a, .inf false => a
  | .inf true, _ => .inf true
  | _, .inf true => .inf true
  | .fin a, .fin b => .fin (max a b)

/-- `Math.floor`. -/
def JsNum.floorJ : JsNum → JsNum
  | .fin a => .fin (⌊a⌋ : ℤ)
  | x => x

/-- `Math.abs`. -/
def JsNum.absJ : JsNum → JsNum
  | .fin a => .fin |a|
  | .nan => .nan
  | .inf _ => .inf true

/-- Whether the number is finite (`isFinite`, and `!isNaN && isFinite`). -/
def JsNum.finiteB : JsNum → Bool
  | .fin _ => true
  | _ => false

/-- Truthiness used as the sign of a JS sort-comparator result: positive
means "swap"; a NaN comparator result is treated as `+0` by
`Array.prototype.sort`, hence not positive. -/
def JsNum.posB : JsNum → Bool
  | .fin q => decide (0 < q)
  | .inf s => s
  | .nan => false

/-- A JavaScript primitive value as stored in a parsed data row:
string, number, boolean or null.  A property that is absent (`undefined`)
is represented by `Option.none` at use sites. -/
inductive JsVal where
  | str : String → JsVal
  | num : JsNum → JsVal
  | bool : Bool → JsVal
  | null : JsVal
deriving DecidableEq, Repr

/-- A data row: a JavaScript object, modelled as an association list with
distinct-key insertion-order semantics. -/
abbrev Row : Type := List (String × JsVal)

/-- Property read, `row[k]`; `none` models `undefined`. -/
def rowGet (r : Row) (k : String) : Option JsVal :=
  (List.find? (fun p => p.1 = k) r).map (fun p => p.2)

/-- Property assignment, `row[k] = v` (replaces an existing key in place,
else appends, as JavaScript object assignment does). -/
def rowSet (r : Row) (k : String) (v : JsVal) : Row :=
  match r with
  | [] => [(k, v)]
  | (k', v') :: rest =>
    if k' = k then (k, v) :: rest else (k', v') :: rowSet rest k v

/-! ### Character-level string utilities (used instead of the opaque
`String` API so that all definitions reduce well). -/

/-- Digit run at the front of a character list. -/
def takeDigits (cs : List Char) : List Char × List Char :=
  (cs.takeWhile Char.isDigit, cs.dropWhile Char.isDigit)

/-- Value of a list of decimal digit characters. -/
def digitsVal (ds : List Char) : ℕ :=
  ds.foldl (fun a c => 10 * a + (c.toNat - 48)) 0

/-- Trim leading and trailing whitespace (models `String.prototype.trim`). -/
def trimChars (cs : List Char) : List Char :=
  ((cs.dropWhile Char.isWhitespace).reverse.dropWhile Char.isWhitespace).reverse

/-- Split a character list at every occurrence of a separator character. -/
def splitOnChar (c : Char) : List Char → List (List Char)
  | [] => [[]]
  | x :: xs =>
    match splitOnChar c xs with
    | [] => [[]]
    | y :: ys => if x = c then [] :: y :: ys else (x :: y) :: ys

/-- Whether `pat` occurs as a contiguous substring of `l`
(models `String.prototype.includes`). -/
def containsSub (pat : List Char) : List Char → Bool
  | [] => pat.isEmpty
  | c :: cs => pat.isPrefixOf (c :: cs) || containsSub pat cs

/-! ### Numeric string parsing -/

/-- Parse the ECMAScript mantissa `digits [. digits] | . digits`,
returning its value and the unconsumed rest. -/
def parseMantissa (cs : List Char) : Option (ℚ × List Char) :=
  let p := takeDigits cs
  match p.2 with
  | '.' :: r2 =>
    let pf := takeDigits r2
    if p.1 = [] ∧ pf.1 = [] then none
    else some ((digitsVal p.1 : ℚ) + (digitsVal pf.1 : ℚ) / 10 ^ pf.1.length, pf.2)
  | _ => if p.1 = [] then none else some ((digitsVal p.1 : ℚ), p.2)

/-- Parse an optional exponent part `e|E [+|-] digits`; when no full
exponent follows, nothing is consumed. -/
def parseExponent (cs : List Char) : ℤ × List Char :=
  match cs with
  | c :: r1 =>
    if c = 'e' ∨ c = 'E' then
      match r1 with
      | s :: r2 =>
        if s = '+' ∨ s = '-' then
          let p := takeDigits r2
          if p.1 = [] then (0, cs)
          else ((if s = '-' then -(digitsVal p.1 : ℤ) else (digitsVal p.1 : ℤ)), p.2)
        else
          let p := takeDigits r1
          if p.1 = [] then (0, cs) else ((digitsVal p.1 : ℤ), p.2)
      | [] => (0, cs)
    else (0, cs)
  | [] => (0, cs)

/-- Parse `Infinity` or a decimal literal after an optional sign has been
consumed; returns the value and the unconsumed rest. -/
def parseAfterSign (neg : Bool) (cs : List Char) : Option (JsNum × List Char) :=
  if "Infinity".data.isPrefixOf cs then
    some (.inf (!neg), cs.drop 8)
  else
    match parseMantissa cs with
    | none => none
    | some (m, r) =>
      let e := parseExponent r
      some (.fin ((if neg then -m else m) * (10 : ℚ) ^ e.1), e.2)

/-- Sign-splitting helper shared by `parseFloat` and `Number`. -/
def parseSigned (cs : List Char) : Option (JsNum × List Char) :=
  match cs with
  | '+' :: r => parseAfterSign false r
  | '-' :: r => parseAfterSign true r
  | _ => parseAfterSign false cs

/-- `parseFloat`: skips leading whitespace, reads the longest prefix that
is a signed decimal literal or `Infinity`, NaN when there is none.
Trailing characters are ignored. -/
def parseFloatJs (s : String) : JsNum :=
  match parseSigned (s.data.dropWhile Char.isWhitespace) with
  | none => .nan
  | some (n, _) => n

/-- Value of a digit character in a given radix, if any. -/
def radixDigit (radix : ℕ) (c : Char) : Option ℕ :=
  let v : ℕ :=
    if c.isDigit then c.toNat - 48
    else if 'a' ≤ c ∧ c ≤ 'f' then c.toNat - 87
    else if 'A' ≤ c ∧ c ≤ 'F' then c.toNat - 55
    else 99
  if v < radix then some v else none

/-- Value of a nonempty all-digit string in a given radix, if valid. -/
def radixVal (radix : ℕ) (ds : List Char) : Option ℕ :=
  if ds = [] then none
  else ds.foldl (fun acc c => acc.bind fun a => (radixDigit radix c).map fun d => radix * a + d)
    (some 0)

/-- The `Number(string)` coercion: trims, `""` is `0`, accepts a full
(and only a full) signed decimal literal, `Infinity`, or an unsigned
`0x`/`0o`/`0b` radix literal; anything else is NaN. -/
def strToNum (s : String) : JsNum :=
  let cs := trimChars s.data
  match cs with
  | [] => .fin 0
  | '0' :: x :: r =>
    if x = 'x' ∨ x = 'X' then (radixVal 16 r).elim .nan (fun n => .fin n)
    else if x = 'o' ∨ x = 'O' then (radixVal 8 r).elim .nan (fun n => .fin n)
    else if x = 'b' ∨ x = 'B' then (radixVal 2 r).elim .nan (fun n => .fin n)
    else match parseSigned cs with
      | some (n, []) => n
      | _ => .nan
  | _ =>
    match parseSigned cs with
    | some (n, []) => n
    | _ => .nan

/-- The regex `^(-?\d+(\.\d+)?)` of the chart sorter followed by
`parseFloat` on the match: an optional minus, at least one digit, and an
optional fraction with at least one digit. -/
def extractNum (s : String) : Option ℚ :=
  let p : Bool × List Char :=
    match s.data with
    | '-' :: r => (true, r)
    | cs => (false, cs)
  let d := takeDigits p.2
  if d.1 = [] then none
  else
    let m : ℚ :=
      match d.2 with
      | '.' :: r2 =>
        let f := takeDigits r2
        if f.1 = [] then (digitsVal d.1 : ℚ)
        else (digitsVal d.1 : ℚ) + (digitsVal f.1 : ℚ) / 10 ^ f.1.length
      | _ => (digitsVal d.1 : ℚ)
    some (if p.1 then -m else m)

/-! ### Number rendering -/

/-- Decimal digits of a natural number. -/
def natDigits (n : ℕ) : List Char :=
  (Nat.toDigits 10 n)

/-- `10 ^ k` clears the denominator, if the denominator is 2-5-smooth;
fuel-driven. -/
def tenSmoothExp : ℕ → ℕ → Option ℕ
  | 0, _ => none
  | _ + 1, 1 => some 0
  | f + 1, d =>
    if d % 2 = 0 then (tenSmoothExp f (d / 2)).map (· + 1)
    else if d % 5 = 0 then (tenSmoothExp f (d / 5)).map (· + 1)
    else none

/-- Render `m / 10^k` (`m : ℕ`) as decimal digits with the point inserted
and trailing fraction zeros removed. -/
def decimalString (m : ℕ) (k : ℕ) : List Char :=
  let ip := m / 10 ^ k
  let fp := m % 10 ^ k
  if fp = 0 then natDigits ip
  else
    let fracRaw := natDigits fp
    let frac := List.replicate (k - fracRaw.length) '0' ++ fracRaw
    natDigits ip ++ '.' :: (frac.reverse.dropWhile (· = '0')).reverse

/-- Render a rational as JavaScript `String(number)` does for
finite-decimal rationals (every IEEE double is one); rationals outside
that image (unreachable from double arithmetic) fall back to a
fraction marker. -/
def qToString (q : ℚ) : String :=
  let sign : List Char := if q < 0 then ['-'] else []
  match tenSmoothExp q.den q.den with
  | some k => ⟨sign ++ decimalString (q.num.natAbs * 10 ^ k / q.den) k⟩
  | none => ⟨sign ++ natDigits q.num.natAbs ++ '/' :: natDigits q.den⟩

/-- `Number.prototype.toFixed f`: round half away from zero to `f`
fraction digits and render with exactly `f` fraction digits. -/
def qToFixed (f : ℕ) (q : ℚ) : String :=
  let sign : List Char := if q < 0 then ['-'] else []
  let n := (⌊|q| * 10 ^ f + 1 / 2⌋).toNat
  if f = 0 then ⟨sign ++ natDigits n⟩
  else
    let raw := natDigits n
    let padded := List.replicate (f + 1 - raw.length) '0' ++ raw
    ⟨sign ++ padded.take (padded.length - f) ++ '.' :: padded.drop (padded.length - f)⟩

/-- `toFixed` on a JS number (`"NaN"`, `"Infinity"`, `"-Infinity"` pass
through as in JavaScript). -/
def numToFixed (f : ℕ) : JsNum → String
  | .fin q => qToFixed f q
  | .nan => "NaN"
  | .inf true => "Infinity"
  | .inf false => "-Infinity"

/-- Insert `,` thousands separators from the right. -/
def groupDigits (cs : List Char) : List Char :=
  let rec go : List Char → List Char
    | a :: b :: c :: d :: rest => a :: b :: c :: ',' :: go (d :: rest)
    | l => l
  (go cs.reverse).reverse

/-- `Number.prototype.toLocaleString` for a natural number in the en-US
default locale. -/
def natToLocale (n : ℕ) : String := ⟨groupDigits (natDigits n)⟩

/-- `toLocaleString` of a rational in the en-US default locale: grouped
integer part, at most 3 fraction digits (half away from zero), trailing
zeros trimmed. -/
def qToLocale (q : ℚ) : String :=
  let sign : List Char := if q < 0 then ['-'] else []
  let n := (⌊|q| * 1000 + 1 / 2⌋).toNat
  let ip := n / 1000
  let fp := n % 1000
  if fp = 0 then ⟨sign ++ groupDigits (natDigits ip)⟩
  else
    let fracRaw := natDigits fp
    let frac := List.replicate (3 - fracRaw.length) '0' ++ fracRaw
    ⟨sign ++ groupDigits (natDigits ip) ++ '.' :: (frac.reverse.dropWhile (· = '0')).reverse⟩

/-- `toLocaleString` on a JS number (en-US renders infinities as `∞`). -/
def numToLocale : JsNum → String
  | .fin q => qToLocale q
  | .nan => "NaN"
  | .inf true => "∞"
  | .inf false => "-∞"

/-- JavaScript `String(value)` on a primitive. -/
def jsToStr : JsVal → String
  | .str s => s
  | .num (.fin q) => qToString q
  | .num .nan => "NaN"
  | .num (.inf true) => "Infinity"
  | .num (.inf false) => "-Infinity"
  | .bool true => "true"
  | .bool false => "false"
  | .null => "null"

/-- JavaScript `ToNumber` on a possibly-absent primitive
(`undefined` is NaN, `null` is `0`). -/
def toNumber : Option JsVal → JsNum
  | none => .nan
  | some (.num n) => n
  | some (.str s) => strToNum s
  | some (.bool b) => .fin (if b then 1 else 0)
  | some .null => .fin 0

/-- JavaScript `+` on primitives: string concatenation when either operand
is a string, else numeric addition. -/
def jsAdd : JsVal → JsVal → JsVal
  | .str a, b => .str (a ++ jsToStr b)
  | a, .str b => .str (jsToStr a ++ b)
  | a, b => .num ((toNumber (some a)).add (toNumber (some b)))

/-- JavaScript `-` on primitives (always numeric). -/
def jsSubV (a b : JsVal) : JsNum := (toNumber (some a)).sub (toNumber (some b))

/-- JavaScript `*` on primitives (always numeric). -/
def jsMulV (a b : JsVal) : JsNum := (toNumber (some a)).mul (toNumber (some b))

/-- The implementation-, locale- and randomness-dependent JavaScript
built-ins the engine calls, as parameters of the model:
`rnd` is the stream of `Math.random()` results, `sqrtF`/`logF` model
`Math.sqrt`/`Math.log` on nonnegative/positive rationals, `cosF x` models
`Math.cos (2 * Math.PI * x)`, `dateParse` models `Date.parse` (`none` for
NaN), `localeCmp` models `localeCompare` with
`{numeric: true, sensitivity: "base"}`. -/
structure JsEnv where
  rnd : ℕ → ℚ
  sqrtF : ℚ → ℚ
  logF : ℚ → ℚ
  cosF : ℚ → ℚ
  dateParse : String → Option ℤ
  localeCmp : String → String → ℤ

/-- `Math.sqrt` (NaN on negative input). -/
def jsSqrt (env : JsEnv) : JsNum → JsNum
  | .fin q => if q < 0 then .nan else .fin (env.sqrtF q)
  | .nan => .nan
  | .inf true => .inf true
  | .inf false => .nan

/-! ### The `Array.prototype.sort` model

A comparator-driven insertion sort.  For a consistent comparator it
produces a sorted permutation, which is all ECMA-262 guarantees; for an
inconsistent comparator ECMA-262 leaves the order implementation-defined,
and so does this model. -/

/-- Insert an element into a list, walking past every element the
comparator ranks strictly below it (a NaN comparator result counts as
`+0`, i.e. "do not swap", per `Array.prototype.sort`). -/
def insertCmp (cmp : α → α → JsNum) (a : α) : List α → List α
  | [] => [a]
  | b :: bs => if (cmp a b).posB then b :: insertCmp cmp a bs else a :: b :: bs

/-- Comparator-driven insertion sort modelling `Array.prototype.sort`. -/
def jsSortBy (cmp : α → α → JsNum) : List α → List α
  | [] => []
  | a :: as => insertCmp cmp a (jsSortBy cmp as)

/-- Sort a list of possibly-absent values the way `Array.prototype.sort`
does with the comparator `(a, b) => a - b`: `undefined` entries go to the
end without consulting the comparator. -/
def jsSortVals (l : List (Option JsVal)) : List (Option JsVal) :=
  let defined := l.filterMap id
  (jsSortBy (fun a b => jsSubV a b) defined).map some ++
    List.replicate (l.length - defined.length) none

/-! ### The CSV parser (`parseCSV`) -/

/-- Split raw text on `/\r?\n/`. -/
def splitLines (s : String) : List String :=
  (splitOnChar '\n' s.data).map fun l =>
    ⟨match l.reverse with
     | '\r' :: r => r.reverse
     | _ => l⟩

/-- `.replace(/^"|"$/g, '')`: strip one leading and one trailing double
quote. -/
def stripQuotes (cs : List Char) : List Char :=
  let s1 := match cs with
    | '"' :: r => r
    | _ => cs
  match s1.reverse with
  | '"' :: r => r.reverse
  | _ => s1

/-- Field normalisation applied to every header and value:
`.trim().replace(/^"|"$/g, '')`. -/
def fieldProcess (cs : List Char) : String := ⟨stripQuotes (trimChars cs)⟩

/-- Cell coercion of `parseCSV`: `parseFloat` the field and keep the
number when it is finite, else keep the (processed) string. -/
def csvCoerce (val : String) : JsVal :=
  match parseFloatJs val with
  | .fin q => .num (.fin q)
  | _ => .str val

/-- Build one row from headers and field values
(`headers.forEach((header, index) => { row[header] = ... })`). -/
def buildRow (headers : List String) (values : List String) : Row :=
  (headers.zip values).foldl (fun r hv => rowSet r hv.1 (csvCoerce hv.2)) ([] : Row)

/-- The CSV parser: split into non-blank lines, take the first as the
header row, split every further line on commas and keep it only when its
arity matches the header's. -/
def parseCSV (csvText : String) : List Row :=
  let lines := (splitLines csvText).filter (fun l => (⟨trimChars l.data⟩ : String) ≠ "")
  match lines with
  | [] => []
  | header :: rest =>
    let headers := (splitOnChar ',' header.data).map fieldProcess
    rest.filterMap fun line =>
      let values := (splitOnChar ',' line.data).map fieldProcess
      if values.length = headers.length then some (buildRow headers values) else none

/-! ### The metric calculator (`calculateMetric`) -/

/-- The number-typed cells of a column
(`data.map(d => d[column]).filter(v => typeof v === 'number')`). -/
def numericCells (data : List Row) (column : String) : List JsNum :=
  data.filterMap fun d =>
    match rowGet d column with
    | some (.num n) => some n
    | _ => none

/-- The metric calculator: reduces one column to a formatted scalar
string, with the sentinel `"N/A"` whenever the column holds no
number-typed value. -/
def calculateMetric (data : List Row) (column : String) (op : String) : String :=
  let values := numericCells data column
  if values.length = 0 then "N/A"
  else if op = "sum" then numToLocale (values.foldl JsNum.add (.fin 0))
  else if op = "mean" then
    numToFixed 2 ((values.foldl JsNum.add (.fin 0)).div (.fin values.length))
  else if op = "max" then numToLocale (values.foldl JsNum.max2 (.inf false))
  else if op = "min" then numToLocale (values.foldl JsNum.min2 (.inf true))
  else if op = "count" then natToLocale data.length
  else "N/A"

/-! ### Simple statistics (`calculateStats`) and Pearson correlation -/

/-- Result of `calculateStats`. -/
structure StatsResult where
  min : JsNum
  max : JsNum
  mean : JsNum
  std : JsNum
deriving DecidableEq, Repr

/-- JavaScript `+` where the right operand may be `undefined`. -/
def jsAddO (a : JsVal) (b : Option JsVal) : JsVal :=
  match b with
  | some v => jsAdd a v
  | none =>
    match a with
    | .str s => .str (s ++ "undefined")
    | a => .num ((toNumber (some a)).add .nan)

/-- `calculateStats`: min, max, mean and population standard deviation of
a list of values (the callers pass number-typed cells, but the arithmetic
is the generic JavaScript one). -/
def calculateStats (env : JsEnv) (values : List JsVal) : StatsResult :=
  if values.length = 0 then ⟨.fin 0, .fin 0, .fin 0, .fin 0⟩
  else
    let sum := values.foldl jsAdd (.num (.fin 0))
    let mean := (toNumber (some sum)).div (.fin values.length)
    let minv := values.foldl (fun m v => m.min2 (toNumber (some v))) (.inf true)
    let maxv := values.foldl (fun m v => m.max2 (toNumber (some v))) (.inf false)
    let variance :=
      (values.foldl
        (fun a b => a.add (((toNumber (some b)).sub mean).mul ((toNumber (some b)).sub mean)))
        (JsNum.fin 0)).div (.fin values.length)
    ⟨minv, maxv, mean, jsSqrt env variance⟩

/-- `calculateCorrelation`: Pearson correlation of two equally long value
lists; `0` on length mismatch, emptiness, or zero variance. -/
def calculateCorrelation (env : JsEnv) (x y : List (Option JsVal)) : JsNum :=
  let n := x.length
  if n ≠ y.length ∨ n = 0 then .fin 0
  else
    let meanX := (toNumber (some (x.foldl jsAddO (.num (.fin 0))))).div (.fin n)
    let meanY := (toNumber (some (y.foldl jsAddO (.num (.fin 0))))).div (.fin n)
    let acc := (x.zip y).foldl
      (fun acc p =>
        let dx := (toNumber p.1).sub meanX
        let dy := (toNumber p.2).sub meanY
        (acc.1.add (dx.mul dy), acc.2.1.add (dx.mul dx), acc.2.2.add (dy.mul dy)))
      ((.fin 0 : JsNum), (.fin 0 : JsNum), (.fin 0 : JsNum))
    if acc.2.1 = .fin 0 ∨ acc.2.2 = .fin 0 then .fin 0
    else acc.1.div (jsSqrt env (acc.2.1.mul acc.2.2))

/-! ### The regression engine (`calculateRegression`) -/

/-- Result of `calculateRegression`. -/
structure RegressionResult where
  xColumn : String
  yColumn : String
  slope : JsNum
  intercept : JsNum
  rSquared : JsNum
  equation : String
  trendline : List (JsNum × JsNum)
deriving DecidableEq, Repr

/-- Ordinary least squares with closed-form slope/intercept, R² from
`1 - SSres/SStot`, and a two-point trendline; `none` below 2 points.
The point coordinates are the raw cell values (the TypeScript `as number`
cast has no runtime effect), so the sums use generic JavaScript `+`. -/
def calculateRegression (data : List Row) (xCol yCol : String) :
    Option RegressionResult :=
  let points := (data.map (fun row => (rowGet row xCol, rowGet row yCol))).filter
    (fun p => toNumber p.1 ≠ .nan ∧ toNumber p.2 ≠ .nan)
  if points.length < 2 then none
  else
    let n : ℕ := points.length
    let sumX := toNumber (some (points.foldl (fun acc p => jsAddO acc p.1) (.num (.fin 0))))
    let sumY := toNumber (some (points.foldl (fun acc p => jsAddO acc p.2) (.num (.fin 0))))
    let sumXY := points.foldl (fun acc p => acc.add ((toNumber p.1).mul (toNumber p.2))) (JsNum.fin 0)
    let sumXX := points.foldl (fun acc p => acc.add ((toNumber p.1).mul (toNumber p.1))) (JsNum.fin 0)
    let sumYY := points.foldl (fun acc p => acc.add ((toNumber p.2).mul (toNumber p.2))) (JsNum.fin 0)
    let slope := (((.fin n : JsNum).mul sumXY).sub (sumX.mul sumY)).div
      (((.fin n : JsNum).mul sumXX).sub (sumX.mul sumX))
    let intercept := (sumY.sub (slope.mul sumX)).div (.fin n)
    let ssTot := sumYY.sub ((sumY.mul sumY).div (.fin n))
    let ssRes := points.foldl
      (fun acc p =>
        let pred := (slope.mul (toNumber p.1)).add intercept
        acc.add (((toNumber p.2).sub pred).mul ((toNumber p.2).sub pred)))
      (JsNum.fin 0)
    let rSquared := (.fin 1 : JsNum).sub (ssRes.div ssTot)
    let minX := points.foldl (fun m p => m.min2 (toNumber p.1)) (.inf true)
    let maxX := points.foldl (fun m p => m.max2 (toNumber p.1)) (.inf false)
    some
      { xColumn := xCol
        yColumn := yCol
        slope := slope
        intercept := intercept
        rSquared := rSquared
        equation := "y = " ++ numToFixed 2 slope ++ "x + " ++ numToFixed 2 intercept
        trendline :=
          [(minX, (slope.mul minX).add intercept), (maxX, (slope.mul maxX).add intercept)] }

/-! ### The Monte Carlo engine (`runMonteCarlo`) -/

/-- Result of `runMonteCarlo`. -/
structure MonteCarloResult where
  column : String
  p10 : JsNum
  p50 : JsNum
  p90 : JsNum
  iterations : ℕ
  mean : JsNum
  std : JsNum
deriving DecidableEq, Repr

/-- The cells of a column that pass `!isNaN(v)` (the coercing global
`isNaN`; an absent cell coerces to NaN and is dropped). -/
def validCells (data : List Row) (col : String) : List JsVal :=
  data.filterMap fun r =>
    match rowGet r col with
    | some w => if toNumber (some w) = .nan then none else some w
    | none => none

/-- The 1000 Box–Muller draws
`mean + sqrt(-2 log u1) * cos(2 pi u2) * std`, with `u1, u2` consumed
pairwise from the random stream. -/
def mcSimulations (env : JsEnv) (mean std : JsNum) : List JsNum :=
  (List.range 1000).map fun i =>
    let u1 := env.rnd (2 * i)
    let u2 := env.rnd (2 * i + 1)
    let z := (jsSqrt env (.fin (-2 * env.logF u1))).mul (.fin (env.cosF u2))
    mean.add (z.mul std)

/-- `simulations[Math.floor(0.1 * iterations)]` of the sorted
simulations. -/
def mcP10 (env : JsEnv) (mean std : JsNum) : JsNum :=
  (jsSortBy JsNum.sub (mcSimulations env mean std)).getD
    (⌊(1 / 10 : ℚ) * (1000 : ℕ)⌋).toNat .nan

/-- `simulations[Math.floor(0.5 * iterations)]` of the sorted
simulations. -/
def mcP50 (env : JsEnv) (mean std : JsNum) : JsNum :=
  (jsSortBy JsNum.sub (mcSimulations env mean std)).getD
    (⌊(5 / 10 : ℚ) * (1000 : ℕ)⌋).toNat .nan

/-- `simulations[Math.floor(0.9 * iterations)]` of the sorted
simulations. -/
def mcP90 (env : JsEnv) (mean std : JsNum) : JsNum :=
  (jsSortBy JsNum.sub (mcSimulations env mean std)).getD
    (⌊(9 / 10 : ℚ) * (1000 : ℕ)⌋).toNat .nan

/-- The result record of a successful `runMonteCarlo` call. -/
def mcResult (env : JsEnv) (data : List Row) (col : String) : MonteCarloResult :=
  let st := calculateStats env (validCells data col)
  { column := col
    p10 := mcP10 env st.mean st.std
    p50 := mcP50 env st.mean st.std
    p90 := mcP90 env st.mean st.std
    iterations := 1000
    mean := st.mean
    std := st.std }

/-- `runMonteCarlo`: requires at least 10 valid values and truthy mean and
std of the source column, runs 1000 simulated draws, sorts them with the
numeric comparator and reports the floor-indexed 10th/50th/90th
percentiles. -/
def runMonteCarlo (env : JsEnv) (data : List Row) (col : String) :
    Option MonteCarloResult :=
  let values := validCells data col
  if values.length < 10 then none
  else
    let st := calculateStats env values
    if st.mean = .fin 0 ∨ st.mean = .nan ∨ st.std = .fin 0 ∨ st.std = .nan then none
    else some (mcResult env data col)

/-! ### The column profiler (`profileDataset`, first part) -/

/-- Column type tags. -/
inductive ColumnType where
  | NUMERIC
  | CATEGORICAL
  | TEXT
  | DATE
  | UNKNOWN
deriving DecidableEq, Repr

/-- Semantic role tags. -/
inductive SemanticType where
  | ID
  | CURRENCY
  | TEMPORAL
  | GEOGRAPHIC
  | GENERAL
deriving DecidableEq, Repr

/-- A column profile (the numeric summary fields are spread in only for
numeric columns, hence optional). -/
structure ColumnProfile where
  name : String
  type : ColumnType
  semanticType : SemanticType
  missingCount : ℕ
  uniqueCount : ℕ
  min : Option JsNum
  max : Option JsNum
  mean : Option JsNum
  std : Option JsNum
  exampleValues : List String
deriving DecidableEq, Repr

/-- `detectSemanticType`: keyword heuristics on the lower-cased header. -/
def detectSemanticType (header : String) (t : ColumnType) : SemanticType :=
  let lh := header.data.map Char.toLower
  if ["id", "uuid", "index"].any (fun k => containsSub k.data lh) then .ID
  else if t = .NUMERIC &&
      ["price", "cost", "salary", "revenue", "amount", "total", "sales"].any
        (fun k => containsSub k.data lh) then .CURRENCY
  else if t = .NUMERIC &&
      ["lat", "lon", "zip", "coordinate"].any (fun k => containsSub k.data lh) then
    .GEOGRAPHIC
  else if t = .DATE ||
      ["date", "time", "year", "month", "day", "timestamp"].any
        (fun k => containsSub k.data lh) then .TEMPORAL
  else .GENERAL

/-- Per-column scan accumulator: missing count, the distinct-value set in
insertion order (`Set` semantics: SameValueZero, so NaN equals itself),
the number-typed values, and the all-present-values-numeric flag. -/
structure ProfAcc where
  missing : ℕ
  distinct : List JsVal
  numericValues : List JsVal
  isNumericFlag : Bool
deriving Repr

/-- One step of the per-column scan. -/
def profStep (acc : ProfAcc) (val : Option JsVal) : ProfAcc :=
  match val with
  | none => { acc with missing := acc.missing + 1 }
  | some .null => { acc with missing := acc.missing + 1 }
  | some (.str "") => { acc with missing := acc.missing + 1 }
  | some v =>
    { acc with
      distinct := if v ∈ acc.distinct then acc.distinct else acc.distinct ++ [v]
      isNumericFlag :=
        acc.isNumericFlag && (match v with | .num _ => true | _ => false)
      numericValues :=
        match v with
        | .num _ => acc.numericValues ++ [v]
        | _ => acc.numericValues }

/-- Profile one column: scan all rows, infer the type
(Numeric → Categorical → Text, with a Text column whose first distinct
value parses as a date reclassified to Date), detect the semantic role,
and attach summary statistics for numeric columns. -/
def profileColumn (env : JsEnv) (data : List Row) (header : String) : ColumnProfile :=
  let acc := data.foldl (fun a row => profStep a (rowGet row header)) ⟨0, [], [], true⟩
  let t1 : ColumnType :=
    if acc.isNumericFlag then .NUMERIC
    else if acc.distinct.length < 20 ∧ 0 < acc.distinct.length then .CATEGORICAL
    else .TEXT
  let t2 : ColumnType :=
    if t1 = .TEXT then
      match acc.distinct.head? with
      | some v => if (env.dateParse (jsToStr v)).isSome then .DATE else .TEXT
      | none => .TEXT
    else t1
  let stats := if acc.isNumericFlag then some (calculateStats env acc.numericValues) else none
  { name := header
    type := t2
    semanticType := detectSemanticType header t2
    missingCount := acc.missing
    uniqueCount := acc.distinct.length
    min := stats.map (fun s => s.min)
    max := stats.map (fun s => s.max)
    mean := stats.map (fun s => s.mean)
    std := stats.map (fun s => s.std)
    exampleValues := (acc.distinct.take 5).map jsToStr }

/-- First-occurrence set insertion (JavaScript `Set`/`Object.keys`
order). -/
def setAdd [DecidableEq α] (acc : List α) (v : α) : List α :=
  if v ∈ acc then acc else acc ++ [v]

/-- `Object.keys(data[0])`: the keys of the first row. -/
def headersOf (data : List Row) : List String :=
  match data with
  | [] => []
  | r :: _ => (r.map Prod.fst).foldl setAdd []

/-! ### The outlier detector (`findOutliers`) -/

/-- The Numeric, non-ID columns the detector scans. -/
def numericColsOf (profiles : List ColumnProfile) : List ColumnProfile :=
  profiles.filter (fun p => p.type = .NUMERIC ∧ p.semanticType ≠ .ID)

/-- The per-column IQR fence: floor-indexed quartiles of the sorted
column values give `(Q1 - 1.5 IQR, Q3 + 1.5 IQR)`. -/
def colFences (data : List Row) (colName : String) : JsNum × JsNum :=
  let values := jsSortVals (data.map (fun row => rowGet row colName))
  let q1 := toNumber (values.getD (⌊(values.length : ℚ) * (1 / 4)⌋).toNat none)
  let q3 := toNumber (values.getD (⌊(values.length : ℚ) * (3 / 4)⌋).toNat none)
  let iqr := q3.sub q1
  (q1.sub ((.fin (3 / 2) : JsNum).mul iqr), q3.add ((.fin (3 / 2) : JsNum).mul iqr))

/-- Whether a row's cell lies strictly outside the column's fence. -/
def rowFlagged (data : List Row) (colName : String) (r : Row) : Bool :=
  let f := colFences data colName
  let val := toNumber (rowGet r colName)
  val.ltB f.1 || val.gtB f.2

/-- One column's pass over the data: append the indices of
newly-flagged rows (the `Set` insertion) in row order. -/
def colScan (data : List Row) (colName : String) (acc : List ℕ) : List ℕ :=
  data.enum.foldl
    (fun acc2 p =>
      if rowFlagged data colName p.2 && !(acc2.contains p.1) then acc2 ++ [p.1]
      else acc2)
    acc

/-- All flagged row indices, in `Set` insertion order. -/
def outlierScan (data : List Row) (cols : List ColumnProfile) : List ℕ :=
  cols.foldl (fun acc col => colScan data col.name acc) []

/-- IQR outlier detection: for every Numeric non-ID column, floor-indexed
quartiles of the sorted column values give the fence
`[Q1 - 1.5 IQR, Q3 + 1.5 IQR]`; rows strictly outside any qualifying
column's fence are collected in first-encountered order, deduplicated by
row identity (modelled by row index), and capped to 50. -/
def findOutliers (data : List Row) (profiles : List ColumnProfile) : List Row :=
  let numericCols := numericColsOf profiles
  if numericCols.length = 0 then []
  else ((outlierScan data numericCols).take 50).filterMap (fun i => data.get? i)

/-! ### The dataset profile aggregator (`profileDataset`) -/

/-- The complete statistics snapshot.  `regression`/`monteCarlo` flatten
the optional `advancedStats` wrapper (for a zero-row dataset both are
absent, as in the source). -/
structure DatasetStats where
  rowCount : ℕ
  columnProfiles : List ColumnProfile
  outliers : List Row
  narrativeInsights : List String
  regression : Option RegressionResult
  monteCarlo : Option MonteCarloResult

/-- All ordered pairs `(l i, l j)` with `i < j`, in the double-loop
iteration order of the source. -/
def orderedPairs (l : List α) : List (α × α) :=
  (l.enum.map (fun p => (l.drop (p.1 + 1)).map (fun b => (p.2, b)))).flatten

/-- Accumulator of the strongest-correlation search. -/
structure BestCorr where
  maxCorr : JsNum
  bestPair : String
  candidate : Option (String × String)

/-- The strongest-correlation search over all ordered pairs of numeric
non-ID columns. -/
def corrFold (env : JsEnv) (data : List Row) (cols : List ColumnProfile) : BestCorr :=
  (orderedPairs cols).foldl
    (fun best p =>
      let valsA := data.map (fun r => rowGet r p.1.name)
      let valsB := data.map (fun r => rowGet r p.2.name)
      let corr := calculateCorrelation env valsA valsB
      if corr.absJ.gtB best.maxCorr.absJ then
        { maxCorr := corr
          bestPair := "Strongest Relationship: \"" ++ p.1.name ++ "\" " ++
            (if corr.gtB (.fin 0) then "increases" else "decreases") ++ " as \"" ++
            p.2.name ++ "\" increases (Correlation: " ++ numToFixed 2 corr ++ ")"
          candidate := some (p.1.name, p.2.name) }
      else best)
    ⟨.fin 0, "", none⟩

/-- `(x.std || 0)` of a profile. -/
def stdOr0 (p : ColumnProfile) : JsNum :=
  match p.std with
  | none => .fin 0
  | some s => if s = .fin 0 ∨ s = .nan then .fin 0 else s

/-- Truthiness of an optional numeric field (`p && p.mean`). -/
def meanTruthy (p : ColumnProfile) : Bool :=
  match p.mean with
  | none => false
  | some m => !(m = .fin 0 ∨ m = .nan)

/-- The dataset profile aggregator: profiles every column, finds the
strongest correlation, conditionally fits a regression, picks a Monte
Carlo candidate (Currency first, else highest std), detects outliers and
collects the narrative insights. -/
def profileDataset (env : JsEnv) (data : List Row) : DatasetStats :=
  if data.length = 0 then ⟨0, [], [], [], none, none⟩
  else
    let headers := headersOf data
    let profiles := headers.map (profileColumn env data)
    let numericCols := profiles.filter (fun p => p.type = .NUMERIC ∧ p.semanticType ≠ .ID)
    let best := corrFold env data numericCols
    let regressionResult :=
      match best.candidate with
      | some c =>
        if best.maxCorr.absJ.gtB (.fin (1 / 2)) then calculateRegression data c.1 c.2
        else none
      | none => none
    let mcCandidate :=
      match numericCols.find? (fun c => c.semanticType = .CURRENCY) with
      | some c => some c
      | none => (jsSortBy (fun a b => (stdOr0 b).sub (stdOr0 a)) numericCols).head?
    let monteCarloResult :=
      match mcCandidate with
      | some c => runMonteCarlo env data c.name
      | none => none
    let outliers := findOutliers data profiles
    let insights :=
      (if best.bestPair ≠ "" then [best.bestPair] else []) ++
      (match profiles.find? (fun p => p.semanticType = .TEMPORAL) with
       | some dc =>
         ["Temporal Context: Dataset contains time-series data based on \"" ++ dc.name ++
           "\". Recommended: Time-series forecasting."]
       | none => []) ++
      (match profiles.find? (fun p => p.semanticType = .CURRENCY) with
       | some mc =>
         if meanTruthy mc then
           ["Financial Context: \"" ++ mc.name ++ "\" detected. Average Value: " ++
             (match mc.mean with | some m => numToFixed 2 m | none => "NaN") ++ "."]
         else []
       | none => []) ++
      (if outliers.length ≠ 0 then
        ["Anomaly Detection: Found " ++ (⟨natDigits outliers.length⟩ : String) ++
          " potential outliers using IQR method."]
       else [])
    { rowCount := data.length
      columnProfiles := profiles
      outliers := outliers
      narrativeInsights := insights
      regression := regressionResult
      monteCarlo := monteCarloResult }

/-! ### The visual data preparer (`prepareVisualData`) -/

/-- Chart kinds. -/
inductive ChartKind where
  | bar
  | line
  | scatter
  | pie
deriving DecidableEq, Repr

/-- A chart specification. -/
structure ChartConfig where
  id : String
  title : String
  type : ChartKind
  xAxisKey : String
  dataKeys : List String
  description : String
deriving DecidableEq, Repr

/-- `isNumeric` of the preparer: some row holds a number-typed value in
the column. -/
def isNumericCol (data : List Row) (key : String) : Bool :=
  data.any fun row =>
    match rowGet row key with
    | some (.num _) => true
    | _ => false

/-- The scatter filter: the x cell and every data-key cell coerce to
finite numbers. -/
def scatterKeep (cfg : ChartConfig) (row : Row) : Bool :=
  (toNumber (rowGet row cfg.xAxisKey)).finiteB &&
    cfg.dataKeys.all fun k => (toNumber (rowGet row k)).finiteB

/-- String rendering of a group key
(`String(row[usedXKey] ?? 'Unknown')`). -/
def groupLabel (usedXKey : String) (r : Row) : String :=
  match rowGet r usedXKey with
  | none => "Unknown"
  | some .null => "Unknown"
  | some v => jsToStr v

/-- Append a row to its group, preserving first-encountered group
order. -/
def addToGroups (k : String) (r : Row) :
    List (String × List Row) → List (String × List Row)
  | [] => [(k, [r])]
  | (k', rs) :: gs =>
    if k' = k then (k', rs ++ [r]) :: gs else (k', rs) :: addToGroups k r gs

/-- Group rows by a label function, keys in first-encountered order. -/
def groupRows (lbl : Row → String) (l : List Row) : List (String × List Row) :=
  l.foldl (fun gs r => addToGroups (lbl r) r gs) []

/-- The bin-label number format of the preparer: integers without
decimals, else one decimal place. -/
def fmtBin (n : JsNum) : String :=
  match n with
  | .fin q => if q.den = 1 then qToFixed 0 q else qToFixed 1 q
  | x => numToFixed 1 x

/-- Rounding `parseFloat(x.toFixed(2))` of a finite value: half away from
zero at the second decimal (`parseFloat` re-reads the exact decimal
string `toFixed` produced, so the composite is this exact rounding). -/
def roundDec2 (q : ℚ) : ℚ :=
  (if q < 0 then -⌊|q| * 100 + 1 / 2⌋ else ⌊|q| * 100 + 1 / 2⌋ : ℤ) / 100

/-- `parseFloat(avg.toFixed(2))` on a JS number (`"NaN"` and
`"±Infinity"` parse back to themselves). -/
def toFixed2Num : JsNum → JsNum
  | .fin q => .fin (roundDec2 q)
  | x => x

/-- `(Number(v) || 0)`: NaN (and zero) become `0`; other values,
including infinities, pass through. -/
def numOr0 (n : JsNum) : JsNum :=
  if n = .nan ∨ n = .fin 0 then .fin 0 else n

/-- The value the bar/line aggregation writes for one y-key on one group:
the rounded mean of the `(Number(v) || 0)` coercions over ALL group rows
(denominator `rows.length || 1`) when the column is numeric, with `0`
substituted for a non-finite mean; else the group row count. -/
def aggValue (data : List Row) (rows : List Row) (yKey : String) : JsVal :=
  if isNumericCol data yKey then
    let sum := rows.foldl
      (fun acc curr => acc.add (numOr0 (toNumber (rowGet curr yKey)))) (JsNum.fin 0)
    let avg := sum.div (.fin (if rows.length = 0 then 1 else rows.length))
    .num (if avg.finiteB then toFixed2Num avg else .fin 0)
  else .num (.fin rows.length)

/-- The per-group aggregation record of the bar/line path: the group
label under the x-axis key, then for every requested y-key its
`aggValue`; with no y-keys a single `count` field. -/
def aggRecord (data : List Row) (cfg : ChartConfig) (k : String) (rows : List Row) : Row :=
  let base : Row := [(cfg.xAxisKey, .str k)]
  if cfg.dataKeys = [] then rowSet base "count" (.num (.fin rows.length))
  else cfg.dataKeys.foldl (fun rec yKey => rowSet rec yKey (aggValue data rows yKey)) base

/-- The x-label of an emitted record (`String(a[config.xAxisKey])`;
`undefined` renders as `"undefined"`). -/
def recLabel (cfg : ChartConfig) (rec : Row) : String :=
  match rowGet rec cfg.xAxisKey with
  | none => "undefined"
  | some v => jsToStr v

/-- The composite label comparator of the preparer: `Unknown` then
`Others` are pushed to the end, labels with a leading numeric token
compare numerically, then labels that both parse as dates compare
chronologically, then `localeCompare`. -/
def cmpLabel (env : JsEnv) (a b : String) : JsNum :=
  if a = "Unknown" then .fin 1
  else if b = "Unknown" then .fin (-1)
  else if a = "Others" then .fin 1
  else if b = "Others" then .fin (-1)
  else
    match extractNum a, extractNum b with
    | some x, some y => .fin (x - y)
    | _, _ =>
      match env.dateParse a, env.dateParse b with
      | some x, some y => .fin ((x : ℚ) - (y : ℚ))
      | _, _ => .fin ((env.localeCmp a b : ℤ) : ℚ)

/-- The record comparator used by the bar/line sort. -/
def cmpRec (env : JsEnv) (cfg : ChartConfig) (a b : Row) : JsNum :=
  cmpLabel env (recLabel cfg a) (recLabel cfg b)

/-- The working row set of the bar/line path after empty-x filtering and
the binning / top-N-collapsing rewrites, together with the grouping key
it should be grouped by. -/
def workingDataOf (data : List Row) (cfg : ChartConfig) : List Row × String :=
  let xKey := cfg.xAxisKey
  let isXNumeric := isNumericCol data xKey
  let workingData := data.filter fun r =>
    match rowGet r xKey with
    | none => false
    | some .null => false
    | some (.str "") => false
    | some _ => true
  let distinctX := ((workingData.map (fun r => rowGet r xKey)).foldl setAdd []).length
  if isXNumeric ∧ distinctX > 20 then
    let values := (workingData.map (fun r => rowGet r xKey)).filter
      (fun v => toNumber v ≠ .nan)
    if values.length > 0 then
      let minv := values.foldl (fun m v => m.min2 (toNumber v)) (.inf true)
      let maxv := values.foldl (fun m v => m.max2 (toNumber v)) (.inf false)
      if minv = maxv then (workingData, xKey)
      else
        let binSize := (maxv.sub minv).div (.fin 10)
        let binned := workingData.map fun row =>
          let val := toNumber (rowGet row xKey)
          if val = .nan then rowSet row (xKey ++ "_binned") (.str "Unknown")
          else
            let binIndex := ((val.sub minv).div binSize).floorJ.min2 (.fin 9)
            let binStart := minv.add (binIndex.mul binSize)
            let binEnd := minv.add ((binIndex.add (.fin 1)).mul binSize)
            rowSet row (xKey ++ "_binned") (.str (fmtBin binStart ++ " - " ++ fmtBin binEnd))
        (binned, xKey ++ "_binned")
    else (workingData, xKey)
  else if !isXNumeric ∧ distinctX > 25 then
    let counts := workingData.foldl
      (fun (cs : List (String × ℕ)) r =>
        let k := match rowGet r xKey with
          | none => "undefined"
          | some v => jsToStr v
        match cs.find? (fun p => p.1 = k) with
        | some _ => cs.map (fun p => if p.1 = k then (p.1, p.2 + 1) else p)
        | none => cs ++ [(k, 1)])
      []
    let topKeys := ((jsSortBy (fun a b => .fin ((b.2 : ℚ) - (a.2 : ℚ))) counts).take 20).map
      (fun p => p.1)
    let collapsed := workingData.map fun row =>
      let k := match rowGet row xKey with
        | none => "undefined"
        | some v => jsToStr v
      if topKeys.contains k then
        rowSet row xKey ((rowGet row xKey).getD .null)
      else rowSet row xKey (.str "Others")
    (collapsed, xKey)
  else (workingData, xKey)

/-- The list of aggregated (unsorted) bar/line records. -/
def aggRecords (data : List Row) (cfg : ChartConfig) : List Row :=
  let wd := workingDataOf data cfg
  (groupRows (groupLabel wd.2) wd.1).map fun g => aggRecord data cfg g.1 g.2

/-- The visual data preparer: raw capped rows for scatter, top-10
frequency pairs for pie, and grouped/binned/aggregated records sorted by
the composite label comparator for bar/line. -/
def prepareVisualData (env : JsEnv) (data : List Row) (cfg : ChartConfig) : List Row :=
  if cfg.type = .scatter then
    (data.filter (scatterKeep cfg)).take 500
  else if cfg.type = .pie then
    let counts := data.foldl
      (fun (cs : List (String × ℕ)) row =>
        let k := match rowGet row cfg.xAxisKey with
          | none => "undefined"
          | some v => jsToStr v
        if k ≠ "null" ∧ k ≠ "undefined" ∧ k ≠ "" then
          match cs.find? (fun p => p.1 = k) with
          | some _ => cs.map (fun p => if p.1 = k then (p.1, p.2 + 1) else p)
          | none => cs ++ [(k, 1)]
        else cs)
      []
    ((jsSortBy (fun a b => .fin ((b.2 : ℚ) - (a.2 : ℚ))) counts).take 10).map
      (fun p => ([("name", .str p.1), ("value", .num (.fin p.2))] : Row))
  else
    jsSortBy (cmpRec env cfg) (aggRecords data cfg)

/-! ### Concrete built-in instantiations used by witnesses -/

/-- A concrete total-preorder stand-in for `localeCompare` (compatible
with numeric-prefix ordering, as a `{numeric: true}` collator is):
numeric-prefixed strings first, ordered by their prefix value; all other
strings tie. -/
def lcmp0 (a b : String) : ℤ :=
  match extractNum a, extractNum b with
  | some x, some y => if x < y then -1 else if y < x then 1 else 0
  | some _, none => -1
  | none, some _ => 1
  | none, none => 0

/-- A concrete environment for witnesses: a constant random stream and
simple stand-ins for the transcendental built-ins (`logF` is negative on
`(0,1)`, as the real `Math.log` is). -/
def env0 : JsEnv :=
  { rnd := fun _ => 1 / 2
    sqrtF := id
    logF := fun q => -q
    cosF := id
    dateParse := fun _ => none
    localeCmp := lcmp0 }

/-! ### Claim C3: field coercion in `parseCSV` -/

/-- The claim's criterion, written from the spec's words: the entire
(whitespace-tolerant) field is a finite float — the signed-decimal parse
succeeds, is finite, and consumes every character. -/
def fullFiniteFloat (s : String) : Option ℚ :=
  match parseSigned (s.data.dropWhile Char.isWhitespace) with
  | some (.fin q, []) => some q
  | _ => none

/-! ### Claim C4: all-missing columns in the profiler -/

/-- A cell the profiler counts as missing
(`val === null || val === '' || val === undefined`). -/
def isMissingCell (v : Option JsVal) : Prop :=
  v = none ∨ v = some .null ∨ v = some (.str "")

instance (v : Option JsVal) : Decidable (isMissingCell v) := by
  unfold isMissingCell
  infer_instance

/-- The ten-row dataset (values alternating 1 and 2: mean 3/2, nonzero
std) used by the Monte Carlo counterexample and witness. -/
def mcData : List Row :=
  (List.range 10).map (fun i => [("v", JsVal.num (.fin (if i % 2 = 0 then 1 else 2)))])

/-! ### Grouping and aggregation lemmas for the bar/line path -/

def GroupsInv (lbl : Row → String) (pre : List Row) (gs : List (String × List Row)) : Prop :=
  (gs.map Prod.fst).Nodup ∧
  (∀ g ∈ gs, g.2 = pre.filter (fun r => lbl r = g.1)) ∧
  (∀ r ∈ pre, lbl r ∈ gs.map Prod.fst) ∧
  (∀ k ∈ gs.map Prod.fst, ∃ r ∈ pre, lbl r = k)

/-- Modelled from the claim's words: the sum over all rows of the group of
`Number(row[yKey])` with NaN coercions contributing 0, divided by the
total group row count, rounded to 2 decimals, 0 substituted when not
finite. -/
def claimGroupMean (rows : List Row) (yKey : String) : JsNum :=
  let sum := (rows.map (fun r => numOr0 (toNumber (rowGet r yKey)))).foldl JsNum.add (.fin 0)
  let avg := sum.div (.fin rows.length)
  if avg.finiteB then toFixed2Num avg else .fin 0

/-- Concrete bar config and data for the C10 witness. -/
def barCfg : ChartConfig := ⟨"c", "t", .bar, "g", ["v"], "d"⟩

/-- Two rows in one group: a numeric value 1 and a non-numeric string
(contributing 0 to the numerator, 1 to the denominator: mean 0.50). -/
def barData : List Row :=
  [[("g", .str "a"), ("v", .num (.fin 1))], [("g", .str "a"), ("v", .str "zz")]]

/-- The claim's composite order on labels (amended: `Others` precedes
`Unknown`): special labels last, then numeric-prefix order, then date
order, then the locale comparator. -/
def claimLE (env : JsEnv) (a b : String) : Bool :=
  if b = "Unknown" then true
  else if a = "Unknown" then false
  else if b = "Others" then true
  else if a = "Others" then false
  else
    match extractNum a, extractNum b with
    | some x, some y => decide (x ≤ y)
    | _, _ =>
      match env.dateParse a, env.dateParse b with
      | some x, some y => decide (x ≤ y)
      | _, _ => decide (env.localeCmp a b ≤ 0)

/-- Tail of the witness ordering: numeric-prefixed strings first, by
value. -/
def tail0LE (a b : String) : Prop :=
  match extractNum a, extractNum b with
  | some x, some y => x ≤ y
  | some _, none => True
  | none, some _ => False
  | none, none => True

/-- The total preorder realised by `cmpLabel env0`. -/
def LE0 (a b : String) : Prop :=
  b = "Unknown" ∨
    (a ≠ "Unknown" ∧ b = "Others") ∨
    (a ≠ "Unknown" ∧ a ≠ "Others" ∧ b ≠ "Unknown" ∧ b ≠ "Others" ∧ tail0LE a b)

/-- Three one-row groups whose labels are `Unknown`, `Others` and `A`:
the sorted output puts `A` first, then `Others`, then `Unknown`. -/
def data5 : List Row :=
  [[("g", .str "Unknown"), ("v", .num (.fin 1))],
   [("g", .str "Others"), ("v", .num (.fin 1))],
   [("g", .str "A"), ("v", .num (.fin 1))]]

/-! ### C9: outlier detector vs the IQR specification -/

/-- Whether a stored cell is a finite number. -/
def isFinNumCell : Option JsVal → Bool
  | some (.num (.fin _)) => true
  | _ => false

/-- The rational held by a finite-number cell (0 otherwise). -/
def cellQ (r : Row) (col : String) : ℚ :=
  match rowGet r col with
  | some (.num (.fin q)) => q
  | _ => 0

/-- A finite-number cell value. -/
def finCell (q : ℚ) : JsVal := .num (.fin q)

/-- Modelled from the claim's words: floor-indexed quartiles of the
(ascending) sorted rational column values give the IQR fence. -/
def specFences (data : List Row) (col : String) : ℚ × ℚ :=
  let sorted := List.insertionSort (fun a b => a ≤ b) (data.map (fun r => cellQ r col))
  let n := sorted.length
  let q1 := sorted.getD (⌊(n : ℚ) * (1 / 4)⌋).toNat 0
  let q3 := sorted.getD (⌊(n : ℚ) * (3 / 4)⌋).toNat 0
  let iqr := q3 - q1
  (q1 - 3 / 2 * iqr, q3 + 3 / 2 * iqr)

/-- Modelled from the claim's words: the row's value lies strictly
outside the column's IQR fence. -/
def specOutlier (data : List Row) (col : String) (r : Row) : Prop :=
  cellQ r col < (specFences data col).1 ∨ (specFences data col).2 < cellQ r col

instance (data : List Row) (col : String) (r : Row) :
    Decidable (specOutlier data col r) :=
  inferInstanceAs (Decidable (_ ∨ _))

/-- A single numeric column profile for the claim's concrete examples. -/
def prof9 : ColumnProfile :=
  ⟨"v", .NUMERIC, .GENERAL, 0, 5, none, none, none, none, []⟩

/-- The claim's first example column: values 1, 2, 3, 4, 100. -/
def d9a : List Row :=
  [[("v", .num (.fin 1))], [("v", .num (.fin 2))], [("v", .num (.fin 3))],
   [("v", .num (.fin 4))], [("v", .num (.fin 100))]]

/-- The claim's second example column: values 1, 2, 3, 4, 5. -/
def d9b : List Row :=
  [[("v", .num (.fin 1))], [("v", .num (.fin 2))], [("v", .num (.fin 3))],
   [("v", .num (.fin 4))], [("v", .num (.fin 5))]]

/-- Row `i` of the 52-row counterexample dataset: column `a` is -1 for
the first 13 rows and 2 for the next 12, column `b` is -1 for rows
25-37 and 2 for rows 38-49, column `c` is 2 for rows 50-51; all other
cells are 1.  Each column's quartile fence degenerates to `[1, 1]`, so
columns `a` and `b` flag rows 0-49 and column `c` flags rows 50-51,
which the 50-row cap then drops. -/
def mkRow9 (i : ℕ) : Row :=
  [("a", .num (.fin (if i < 13 then -1 else if i < 25 then 2 else 1))),
   ("b", .num (.fin (if i < 25 then 1 else if i < 38 then -1 else
      if i < 50 then 2 else 1))),
   ("c", .num (.fin (if i < 50 then 1 else 2)))]

/-- The 52-row counterexample dataset. -/
def d9c : List Row := (List.range 52).map mkRow9

/-- Numeric non-ID profiles for the three counterexample columns. -/
def profs9 : List ColumnProfile :=
  [⟨"a", .NUMERIC, .GENERAL, 0, 52, none, none, none, none, []⟩,
   ⟨"b", .NUMERIC, .GENERAL, 0, 52, none, none, none, none, []⟩,
   ⟨"c", .NUMERIC, .GENERAL, 0, 52, none, none, none, none, []⟩]

theorem insertCmp_perm (cmp : α → α → JsNum) (a : α) (l : List α) :
    (insertCmp cmp a l).Perm (a :: l) := by
  induction l with
  | nil => exact List.Perm.refl _
  | cons b bs ih =>
    unfold insertCmp
    by_cases h : (cmp a b).posB
    · simp only [h, if_true]
      exact (ih.cons b).trans (List.Perm.swap a b bs)
    · simp only [h, if_false]
      exact List.Perm.refl _

theorem jsSortBy_perm (cmp : α → α → JsNum) (l : List α) :
    (jsSortBy cmp l).Perm l := by
  induction l with
  | nil => exact List.Perm.refl _
  | cons a as ih =>
    exact (insertCmp_perm cmp a (jsSortBy cmp as)).trans (ih.cons a)

theorem jsSortBy_length (cmp : α → α → JsNum) (l : List α) :
    (jsSortBy cmp l).length = l.length :=
  (jsSortBy_perm cmp l).length_eq

theorem jsSortBy_mem (cmp : α → α → JsNum) (l : List α) (x : α) :
    x ∈ jsSortBy cmp l ↔ x ∈ l :=
  (jsSortBy_perm cmp l).mem_iff

/-! ### Sortedness of the `Array.prototype.sort` model

ECMA-262 guarantees a sorted result only for a consistent comparator;
the lemmas below derive pairwise sortedness from consistency and
transitivity of the comparator, either over all list elements
(`pairwise_jsSortBy`) or over distinct elements of a duplicate-free list
(`pairwise_jsSortByN`, needed because the chart comparator is
inconsistent on a pair of equal special labels, which never occurs among
group keys). -/

theorem mem_insertCmp (cmp : α → α → JsNum) (a : α) (l : List α) (x : α) :
    x ∈ insertCmp cmp a l ↔ x = a ∨ x ∈ l := by
  have h := (insertCmp_perm cmp a l).mem_iff (a := x)
  simpa using h

theorem pairwise_insertCmp (cmp : α → α → JsNum) (a : α) (l : List α)
    (hp : l.Pairwise (fun x y => (cmp x y).posB = false))
    (Hc : ∀ x ∈ a :: l, ∀ y ∈ a :: l, (cmp x y).posB = true → (cmp y x).posB = false)
    (Ht : ∀ x ∈ a :: l, ∀ y ∈ a :: l, ∀ z ∈ a :: l,
      (cmp x y).posB = false → (cmp y z).posB = false → (cmp x z).posB = false) :
    (insertCmp cmp a l).Pairwise (fun x y => (cmp x y).posB = false) := by
  induction l with
  | nil => exact List.pairwise_singleton _ a
  | cons b bs ih =>
    have sub1 : ∀ x, x ∈ a :: bs → x ∈ a :: b :: bs := by
      intro x hx
      rcases List.mem_cons.mp hx with rfl | hx
      · exact List.mem_cons_self _ _
      · exact List.mem_cons_of_mem _ (List.mem_cons_of_mem _ hx)
    have memA : a ∈ a :: b :: bs := List.mem_cons_self _ _
    have memB : b ∈ a :: b :: bs := List.mem_cons_of_mem _ (List.mem_cons_self _ _)
    rw [List.pairwise_cons] at hp
    unfold insertCmp
    by_cases h : (cmp a b).posB = true
    · simp only [h, if_true]
      rw [List.pairwise_cons]
      refine ⟨?_, ?_⟩
      · intro x hx
        rw [mem_insertCmp] at hx
        rcases hx with rfl | hx
        · exact Hc x memA b memB h
        · exact hp.1 x hx
      · refine ih hp.2 ?_ ?_
        · intro x hx y hy hxy
          exact Hc x (sub1 x hx) y (sub1 y hy) hxy
        · intro x hx y hy z hz h1 h2
          exact Ht x (sub1 x hx) y (sub1 y hy) z (sub1 z hz) h1 h2
    · rw [Bool.not_eq_true] at h
      simp only [h, Bool.false_eq_true, if_false]
      rw [List.pairwise_cons]
      refine ⟨?_, List.pairwise_cons.mpr ⟨hp.1, hp.2⟩⟩
      intro x hx
      rcases List.mem_cons.mp hx with rfl | hx
      · exact h
      · exact Ht a memA b memB x (List.mem_cons_of_mem _ (List.mem_cons_of_mem _ hx)) h
          (hp.1 x hx)

theorem pairwise_insertCmpN (cmp : α → α → JsNum) (a : α) (l : List α)
    (ha : a ∉ l) (hnd : l.Nodup)
    (hp : l.Pairwise (fun x y => (cmp x y).posB = false))
    (Hc : ∀ x ∈ a :: l, ∀ y ∈ a :: l, x ≠ y →
      (cmp x y).posB = true → (cmp y x).posB = false)
    (Ht : ∀ x ∈ a :: l, ∀ y ∈ a :: l, ∀ z ∈ a :: l, x ≠ y → y ≠ z → x ≠ z →
      (cmp x y).posB = false → (cmp y z).posB = false → (cmp x z).posB = false) :
    (insertCmp cmp a l).Pairwise (fun x y => (cmp x y).posB = false) := by
  induction l with
  | nil => exact List.pairwise_singleton _ a
  | cons b bs ih =>
    have sub1 : ∀ x, x ∈ a :: bs → x ∈ a :: b :: bs := by
      intro x hx
      rcases List.mem_cons.mp hx with rfl | hx
      · exact List.mem_cons_self _ _
      · exact List.mem_cons_of_mem _ (List.mem_cons_of_mem _ hx)
    have memA : a ∈ a :: b :: bs := List.mem_cons_self _ _
    have memB : b ∈ a :: b :: bs := List.mem_cons_of_mem _ (List.mem_cons_self _ _)
    have hab : a ≠ b := fun e => ha (e ▸ List.mem_cons_self _ _)
    have hanb : a ∉ bs := fun e => ha (List.mem_cons_of_mem _ e)
    rw [List.pairwise_cons] at hp
    rw [List.nodup_cons] at hnd
    unfold insertCmp
    by_cases h : (cmp a b).posB = true
    · simp only [h, if_true]
      rw [List.pairwise_cons]
      refine ⟨?_, ?_⟩
      · intro x hx
        rw [mem_insertCmp] at hx
        rcases hx with rfl | hx
        · exact Hc x memA b memB hab h
        · exact hp.1 x hx
      · refine ih hanb hnd.2 hp.2 ?_ ?_
        · intro x hx y hy hxy
          exact Hc x (sub1 x hx) y (sub1 y hy) hxy
        · intro x hx y hy z hz n1 n2 n3 h1 h2
          exact Ht x (sub1 x hx) y (sub1 y hy) z (sub1 z hz) n1 n2 n3 h1 h2
    · rw [Bool.not_eq_true] at h
      simp only [h, Bool.false_eq_true, if_false]
      rw [List.pairwise_cons]
      refine ⟨?_, List.pairwise_cons.mpr ⟨hp.1, hp.2⟩⟩
      intro x hx
      rcases List.mem_cons.mp hx with rfl | hx
      · exact h
      · exact Ht a memA b memB x (List.mem_cons_of_mem _ (List.mem_cons_of_mem _ hx))
          hab (fun e => hnd.1 (e ▸ hx)) (fun e => hanb (e ▸ hx)) h (hp.1 x hx)

theorem pairwise_jsSortBy (cmp : α → α → JsNum) (l : List α)
    (Hc : ∀ x ∈ l, ∀ y ∈ l, (cmp x y).posB = true → (cmp y x).posB = false)
    (Ht : ∀ x ∈ l, ∀ y ∈ l, ∀ z ∈ l,
      (cmp x y).posB = false → (cmp y z).posB = false → (cmp x z).posB = false) :
    (jsSortBy cmp l).Pairwise (fun x y => (cmp x y).posB = false) := by
  induction l with
  | nil => exact List.Pairwise.nil
  | cons a as ih =>
    have subm : ∀ x, x ∈ a :: jsSortBy cmp as → x ∈ a :: as := by
      intro x hx
      rcases List.mem_cons.mp hx with rfl | hx
      · exact List.mem_cons_self _ _
      · exact List.mem_cons_of_mem _ ((jsSortBy_mem cmp as x).mp hx)
    refine pairwise_insertCmp cmp a (jsSortBy cmp as) ?_ ?_ ?_
    · refine ih ?_ ?_
      · intro x hx y hy
        exact Hc x (List.mem_cons_of_mem _ hx) y (List.mem_cons_of_mem _ hy)
      · intro x hx y hy z hz
        exact Ht x (List.mem_cons_of_mem _ hx) y (List.mem_cons_of_mem _ hy) z
          (List.mem_cons_of_mem _ hz)
    · intro x hx y hy
      exact Hc x (subm x hx) y (subm y hy)
    · intro x hx y hy z hz
      exact Ht x (subm x hx) y (subm y hy) z (subm z hz)

theorem pairwise_jsSortByN (cmp : α → α → JsNum) (l : List α) (hnd : l.Nodup)
    (Hc : ∀ x ∈ l, ∀ y ∈ l, x ≠ y → (cmp x y).posB = true → (cmp y x).posB = false)
    (Ht : ∀ x ∈ l, ∀ y ∈ l, ∀ z ∈ l, x ≠ y → y ≠ z → x ≠ z →
      (cmp x y).posB = false → (cmp y z).posB = false → (cmp x z).posB = false) :
    (jsSortBy cmp l).Pairwise (fun x y => (cmp x y).posB = false) := by
  induction l with
  | nil => exact List.Pairwise.nil
  | cons a as ih =>
    have subm : ∀ x, x ∈ a :: jsSortBy cmp as → x ∈ a :: as := by
      intro x hx
      rcases List.mem_cons.mp hx with rfl | hx
      · exact List.mem_cons_self _ _
      · exact List.mem_cons_of_mem _ ((jsSortBy_mem cmp as x).mp hx)
    rw [List.nodup_cons] at hnd
    refine pairwise_insertCmpN cmp a (jsSortBy cmp as) ?_ ?_ ?_ ?_ ?_
    · intro e
      exact hnd.1 ((jsSortBy_mem cmp as a).mp e)
    · exact ((jsSortBy_perm cmp as).nodup_iff).mpr hnd.2
    · refine ih hnd.2 ?_ ?_
      · intro x hx y hy
        exact Hc x (List.mem_cons_of_mem _ hx) y (List.mem_cons_of_mem _ hy)
      · intro x hx y hy z hz
        exact Ht x (List.mem_cons_of_mem _ hx) y (List.mem_cons_of_mem _ hy) z
          (List.mem_cons_of_mem _ hz)
    · intro x hx y hy
      exact Hc x (subm x hx) y (subm y hy)
    · intro x hx y hy z hz
      exact Ht x (subm x hx) y (subm y hy) z (subm z hz)

/-! ### Claim C1: `calculateMetric` and the `count` operation -/

/-- Claim C1, counterexample: on a one-row dataset whose column holds
only the string `"x"`, the operation `count` returns the sentinel
`"N/A"`, not the formatted row count `"1"` — the `values.length === 0`
early return fires before the `count` branch. -/
theorem C1_counterexample :
    calculateMetric [[("c", .str "x")]] "c" "count" = "N/A" ∧
      calculateMetric [[("c", .str "x")]] "c" "count" ≠ natToLocale 1 := by
  constructor
  · with_unfolding_all rfl
  · with_unfolding_all decide

/-- Claim C1 (amended): `calculateMetric` returns the formatted total row
count for `count` provided the column holds at least one number-typed
value; when it holds none, every operation — `count` included — returns
the sentinel `"N/A"`. -/
theorem C1_count_amended (data : List Row) (column : String) :
    (numericCells data column ≠ [] →
      calculateMetric data column "count" = natToLocale data.length) ∧
    (numericCells data column = [] →
      ∀ op : String, calculateMetric data column op = "N/A") := by
  constructor
  · intro h
    have hlen : ¬ (numericCells data column).length = 0 := by
      simpa [List.length_eq_zero] using h
    simp [calculateMetric, hlen]
  · intro h op
    simp [calculateMetric, h]

/-- Witness for `C1_count_amended`. -/
theorem C1_count_amended_witness :
    numericCells [[("c", JsVal.num (.fin 2))], [("c", JsVal.str "x")]] "c" ≠ [] ∧
      calculateMetric [[("c", JsVal.num (.fin 2))], [("c", JsVal.str "x")]] "c" "count" =
        natToLocale 2 :=
  ⟨by with_unfolding_all decide,
   (C1_count_amended [[("c", JsVal.num (.fin 2))], [("c", JsVal.str "x")]] "c").1
     (by with_unfolding_all decide)⟩

/-! ### Claim C2: the zero-SStot guard of `calculateRegression` -/

/-- Claim C2: the division by zero total variance is NOT guarded: on the
two constant-y points (0, 5), (1, 5) — at least 2 points, all y equal —
the regression returns and its `rSquared` field is `1 - 0/0 = NaN`.  The
claimed guard does not exist in the code. -/
theorem C2_rsquared_nan :
    (calculateRegression
        [[("x", .num (.fin 0)), ("y", .num (.fin 5))],
         [("x", .num (.fin 1)), ("y", .num (.fin 5))]] "x" "y").map
      (fun r => r.rSquared) = some .nan := by
  with_unfolding_all rfl

theorem fullFloat_implies_leadNum (s : String) (q : ℚ)
    (h : fullFiniteFloat s = some q) : parseFloatJs s = .fin q := by
  unfold fullFiniteFloat at h
  unfold parseFloatJs
  cases hp : parseSigned (s.data.dropWhile Char.isWhitespace) with
  | none => rw [hp] at h; cases h
  | some p =>
    rw [hp] at h
    obtain ⟨n, rest⟩ := p
    cases n with
    | fin q' =>
      cases rest with
      | nil =>
        injection h with h
        rw [h]
      | cons c cs => cases h
    | nan => cases h
    | inf s => cases h

theorem csvCoerce_num_iff (s : String) (q : ℚ) :
    csvCoerce s = .num (.fin q) ↔ parseFloatJs s = .fin q := by
  unfold csvCoerce
  cases hp : parseFloatJs s with
  | fin q' => simp
  | nan => simp
  | inf b => simp

theorem mem_rowSet (kv : String × JsVal) (r : Row) (k : String) (v : JsVal) :
    kv ∈ rowSet r k v → kv = (k, v) ∨ kv ∈ r := by
  induction r with
  | nil =>
    intro h
    rcases List.mem_singleton.mp h with h
    exact Or.inl h
  | cons p rest ih =>
    intro h
    obtain ⟨k', v'⟩ := p
    unfold rowSet at h
    by_cases e : k' = k
    · rw [if_pos e] at h
      rcases List.mem_cons.mp h with rfl | h
      · exact Or.inl rfl
      · exact Or.inr (List.mem_cons_of_mem _ h)
    · rw [if_neg e] at h
      rcases List.mem_cons.mp h with rfl | h
      · exact Or.inr (List.mem_cons_self _ _)
      · rcases ih h with h1 | h1
        · exact Or.inl h1
        · exact Or.inr (List.mem_cons_of_mem _ h1)

theorem buildRow_cells (headers values : List String) (kv : String × JsVal)
    (h : kv ∈ buildRow headers values) : ∃ s, kv.2 = csvCoerce s := by
  suffices H : ∀ (l : List (String × String)) (acc : Row),
      (∀ kv' ∈ acc, ∃ s, kv'.2 = csvCoerce s) →
      ∀ kv' ∈ l.foldl (fun r hv => rowSet r hv.1 (csvCoerce hv.2)) acc,
        ∃ s, kv'.2 = csvCoerce s by
    refine H (headers.zip values) [] ?_ kv h
    intro kv' h'
    cases h'
  intro l
  induction l with
  | nil =>
    intro acc hacc kv' h'
    exact hacc kv' h'
  | cons p ps ih =>
    intro acc hacc kv' h'
    refine ih _ ?_ kv' h'
    intro kv2 h2
    rcases mem_rowSet kv2 acc p.1 (csvCoerce p.2) h2 with rfl | h3
    · exact ⟨p.2, rfl⟩
    · exact hacc kv2 h3

theorem parseCSV_rows (text : String) (row : Row) (h : row ∈ parseCSV text) :
    ∃ headers values, row = buildRow headers values := by
  unfold parseCSV at h
  cases hl : (splitLines text).filter (fun l => (⟨trimChars l.data⟩ : String) ≠ "") with
  | nil =>
    rw [hl] at h
    cases h
  | cons header rest =>
    rw [hl] at h
    simp only at h
    rcases List.mem_filterMap.mp h with ⟨line, _, hsome⟩
    split at hsome
    · injection hsome with hsome
      exact ⟨_, _, hsome.symm⟩
    · cases hsome

/-- Claim C3 (amended): every cell `parseCSV` stores is `csvCoerce` of
some processed field string, and a field is stored as a number `q` iff
`parseFloat` — a longest-numeric-PREFIX parse, not a full-string parse —
yields the finite value `q`; a field that parses fully as a finite float
is stored as that number, but so is one with trailing garbage such as
`"42abc"`. -/
theorem C3_cell_coercion_amended (text : String) (row : Row) (kv : String × JsVal)
    (h1 : row ∈ parseCSV text) (h2 : kv ∈ row) :
    ∃ s : String, kv.2 = csvCoerce s ∧
      (∀ q : ℚ, fullFiniteFloat s = some q → csvCoerce s = .num (.fin q)) ∧
      (∀ q : ℚ, csvCoerce s = .num (.fin q) ↔ parseFloatJs s = .fin q) := by
  rcases parseCSV_rows text row h1 with ⟨headers, values, rfl⟩
  rcases buildRow_cells headers values kv h2 with ⟨s, hs⟩
  refine ⟨s, hs, ?_, ?_⟩
  · intro q hq
    exact (csvCoerce_num_iff s q).mpr (fullFloat_implies_leadNum s q hq)
  · intro q
    exact csvCoerce_num_iff s q

/-- Claim C3, counterexample: the field `"42abc"` does not parse fully as
a float, yet `parseCSV` stores it as the number `42` (the `parseFloat`
prefix parse succeeds), refuting "kept as a string". -/
theorem C3_counterexample :
    parseCSV "a\n42abc" = [[("a", .num (.fin 42))]] ∧
      fullFiniteFloat "42abc" = none := by
  constructor
  · with_unfolding_all rfl
  · with_unfolding_all rfl

/-- Witness for `C3_cell_coercion_amended`. -/
theorem C3_cell_coercion_amended_witness :
    [("a", JsVal.num (.fin 42))] ∈ parseCSV "a\n42abc" ∧
      ("a", JsVal.num (.fin 42)) ∈ ([("a", JsVal.num (.fin 42))] : Row) ∧
      ∃ s : String, (("a", JsVal.num (.fin 42)) : String × JsVal).2 = csvCoerce s ∧
        (∀ q : ℚ, fullFiniteFloat s = some q → csvCoerce s = .num (.fin q)) ∧
        (∀ q : ℚ, csvCoerce s = .num (.fin q) ↔ parseFloatJs s = .fin q) :=
  ⟨by with_unfolding_all decide, by with_unfolding_all decide,
   C3_cell_coercion_amended "a\n42abc" [("a", JsVal.num (.fin 42))]
     ("a", JsVal.num (.fin 42)) (by with_unfolding_all decide)
     (by with_unfolding_all decide)⟩

theorem profStep_missing (acc : ProfAcc) (v : Option JsVal) (h : isMissingCell v) :
    profStep acc v = { acc with missing := acc.missing + 1 } := by
  rcases h with rfl | rfl | rfl <;> rfl

theorem foldl_profStep_flag (header : String) :
    ∀ (data : List Row) (init : ProfAcc),
      (∀ row ∈ data, isMissingCell (rowGet row header)) →
      (data.foldl (fun a row => profStep a (rowGet row header)) init).isNumericFlag =
        init.isNumericFlag := by
  intro data
  induction data with
  | nil => intro init _; rfl
  | cons r rs ih =>
    intro init h
    rw [List.foldl_cons, profStep_missing init _ (h r (List.mem_cons_self _ _))]
    exact ih _ (fun row hr => h row (List.mem_cons_of_mem _ hr))

theorem profileColumn_name (env : JsEnv) (data : List Row) (header : String) :
    (profileColumn env data header).name = header := rfl

theorem profileColumn_type_missing (env : JsEnv) (data : List Row) (header : String)
    (h : ∀ row ∈ data, isMissingCell (rowGet row header)) :
    (profileColumn env data header).type = .NUMERIC := by
  unfold profileColumn
  have hf := foldl_profStep_flag header data ⟨0, [], [], true⟩ h
  simp [hf]

theorem profileDataset_profiles (env : JsEnv) (data : List Row) (h : ¬ data.length = 0) :
    (profileDataset env data).columnProfiles =
      (headersOf data).map (profileColumn env data) := by
  unfold profileDataset
  rw [if_neg h]

/-- Claim C4 (amended): a column whose present-value count is zero (every
entry null, undefined or the empty string) IS typed Numeric — the
"all present values are numbers" check passes vacuously, so the
Categorical/Text/Date fallthrough is never consulted for it. -/
theorem C4_all_missing_numeric (env : JsEnv) (data : List Row) (header : String)
    (hne : data ≠ [])
    (hmiss : ∀ row ∈ data, isMissingCell (rowGet row header)) :
    ∀ p ∈ (profileDataset env data).columnProfiles, p.name = header →
      p.type = .NUMERIC := by
  intro p hp hname
  have hlen : ¬ data.length = 0 := by
    simpa [List.length_eq_zero] using hne
  rw [profileDataset_profiles env data hlen] at hp
  rcases List.mem_map.mp hp with ⟨h0, _, rfl⟩
  have he : h0 = header := hname
  subst he
  exact profileColumn_type_missing env data h0 hmiss

/-- Claim C4, counterexample: a two-row column holding only `""` and
`null` (zero present values, `uniqueCount = 0`, `missingCount = 2`) is
profiled as Numeric, refuting "such a column is not typed Numeric". -/
theorem C4_counterexample :
    ((profileDataset env0 [[("a", .str "")], [("a", .null)]]).columnProfiles).map
        (fun p => (p.name, p.type, p.missingCount, p.uniqueCount)) =
      [("a", .NUMERIC, 2, 0)] := by
  with_unfolding_all rfl

/-- Witness for `C4_all_missing_numeric`. -/
theorem C4_all_missing_numeric_witness :
    ([[("a", JsVal.null)], [("a", JsVal.str "")]] : List Row) ≠ [] ∧
      (profileColumn env0 [[("a", JsVal.null)], [("a", JsVal.str "")]] "a").type =
        .NUMERIC := by
  refine ⟨by decide, ?_⟩
  refine C4_all_missing_numeric env0 [[("a", JsVal.null)], [("a", JsVal.str "")]] "a"
    (by decide) (by with_unfolding_all decide)
    (profileColumn env0 [[("a", JsVal.null)], [("a", JsVal.str "")]] "a") ?_ rfl
  rw [profileDataset_profiles env0 _ (by decide)]
  have : headersOf [[("a", JsVal.null)], [("a", JsVal.str "")]] = ["a"] := by
    with_unfolding_all rfl
  rw [this]
  exact List.mem_map_of_mem _ (List.mem_singleton.mpr rfl)

/-! ### Claim C6: the scatter path -/

/-- Claim C6 (amended): for a scatter config the preparer returns exactly
the first at-most-500 rows, in original order, whose x cell and every
data-key cell COERCE via `Number` to finite numbers (`null`, booleans,
the empty string and numeric strings coerce to finite numbers and are
kept; non-numeric strings and absent cells coerce to NaN and are
excluded). -/
theorem C6_scatter_amended (env : JsEnv) (data : List Row) (cfg : ChartConfig)
    (h : cfg.type = .scatter) :
    prepareVisualData env data cfg = (data.filter (scatterKeep cfg)).take 500 ∧
    (prepareVisualData env data cfg).Sublist data ∧
    (prepareVisualData env data cfg).length ≤ 500 ∧
    (∀ r ∈ prepareVisualData env data cfg, scatterKeep cfg r = true) ∧
    ((data.filter (scatterKeep cfg)).length ≤ 500 →
      ∀ r ∈ data, scatterKeep cfg r = true → r ∈ prepareVisualData env data cfg) := by
  have he : prepareVisualData env data cfg = (data.filter (scatterKeep cfg)).take 500 := by
    simp [prepareVisualData, h]
  refine ⟨he, ?_, ?_, ?_, ?_⟩
  · rw [he]
    exact (List.take_sublist _ _).trans (List.filter_sublist _)
  · rw [he, List.length_take]
    exact min_le_left _ _
  · intro r hr
    rw [he] at hr
    exact List.of_mem_filter ((List.take_sublist _ _).subset hr)
  · intro hle r hr hkeep
    rw [he, List.take_of_length_le hle]
    exact List.mem_filter.mpr ⟨hr, hkeep⟩

/-- Claim C6, counterexample: a scatter row whose x value is `null` — a
value that is not a finite number — is KEPT, because `Number(null) = 0`
is finite; the claim's "not a finite number is excluded" fails for
null (and booleans and empty strings). -/
theorem C6_counterexample :
    prepareVisualData env0 [[("x", .null), ("y", .num (.fin 1))]]
        ⟨"c", "t", .scatter, "x", ["y"], "d"⟩ =
      [[("x", .null), ("y", .num (.fin 1))]] := by
  with_unfolding_all rfl

/-- Witness for `C6_scatter_amended`. -/
theorem C6_scatter_amended_witness :
    prepareVisualData env0
        [[("x", JsVal.null), ("y", JsVal.num (.fin 1))], [("x", JsVal.str "q")]]
        ⟨"c", "t", .scatter, "x", ["y"], "d"⟩ =
      (([[("x", JsVal.null), ("y", JsVal.num (.fin 1))], [("x", JsVal.str "q")]] :
          List Row).filter
        (scatterKeep ⟨"c", "t", .scatter, "x", ["y"], "d"⟩)).take 500 :=
  (C6_scatter_amended env0 _ _ rfl).1

/-! ### Claim C8: Monte Carlo percentile ordering -/

theorem sub_posB_false_iff (a b : JsNum) (ha : a ≠ .nan) (hb : b ≠ .nan) :
    ((a.sub b).posB = false) ↔ a.leB b = true := by
  cases a with
  | nan => exact absurd rfl ha
  | fin x =>
    cases b with
    | nan => exact absurd rfl hb
    | fin y =>
      simp only [JsNum.sub, JsNum.neg, JsNum.add, JsNum.posB, JsNum.leB,
        decide_eq_false_iff_not, decide_eq_true_eq, not_lt, ← sub_eq_add_neg, sub_nonpos]
    | inf t =>
      cases t <;> simp [JsNum.sub, JsNum.neg, JsNum.add, JsNum.posB, JsNum.leB]
  | inf s =>
    cases b with
    | nan => exact absurd rfl hb
    | fin y =>
      cases s <;> simp [JsNum.sub, JsNum.neg, JsNum.add, JsNum.posB, JsNum.leB]
    | inf t =>
      cases s <;> cases t <;>
        simp [JsNum.sub, JsNum.neg, JsNum.add, JsNum.posB, JsNum.leB]

theorem leB_total (a b : JsNum) (ha : a ≠ .nan) (hb : b ≠ .nan) :
    a.leB b = true ∨ b.leB a = true := by
  cases a with
  | nan => exact absurd rfl ha
  | fin x =>
    cases b with
    | nan => exact absurd rfl hb
    | fin y =>
      simp only [JsNum.leB, decide_eq_true_eq]
      exact le_total x y
    | inf t => cases t <;> simp [JsNum.leB]
  | inf s =>
    cases b with
    | nan => exact absurd rfl hb
    | fin y => cases s <;> simp [JsNum.leB]
    | inf t => cases s <;> cases t <;> simp [JsNum.leB]

theorem leB_trans (a b c : JsNum) :
    a.leB b = true → b.leB c = true → a.leB c = true := by
  cases a <;> cases b <;> cases c <;>
    simp only [JsNum.leB, decide_eq_true_eq, Bool.or_eq_true, Bool.not_eq_true',
      Bool.false_eq_true] <;>
    intro h1 h2 <;>
    first
      | exact le_trans h1 h2
      | simp_all
      | rfl
      | (rcases h1 with h1 | h1 <;> rcases h2 with h2 | h2 <;> simp_all)

theorem mcSimulations_length (env : JsEnv) (m s : JsNum) :
    (mcSimulations env m s).length = 1000 := by
  simp [mcSimulations]

theorem mcP10_eq (env : JsEnv) (m s : JsNum) :
    mcP10 env m s = (jsSortBy JsNum.sub (mcSimulations env m s)).getD 100 JsNum.nan := by
  unfold mcP10
  norm_num
  rfl

theorem mcP50_eq (env : JsEnv) (m s : JsNum) :
    mcP50 env m s = (jsSortBy JsNum.sub (mcSimulations env m s)).getD 500 JsNum.nan := by
  unfold mcP50
  norm_num
  rfl

theorem mcP90_eq (env : JsEnv) (m s : JsNum) :
    mcP90 env m s = (jsSortBy JsNum.sub (mcSimulations env m s)).getD 900 JsNum.nan := by
  unfold mcP90
  norm_num
  rfl

theorem runMonteCarlo_cases (env : JsEnv) (data : List Row) (col : String) :
    runMonteCarlo env data col = none ∨
      runMonteCarlo env data col = some (mcResult env data col) := by
  unfold runMonteCarlo
  simp only []
  split
  · exact Or.inl rfl
  · split
    · exact Or.inl rfl
    · exact Or.inr rfl

theorem runMonteCarlo_fields (env : JsEnv) (data : List Row) (col : String)
    (res : MonteCarloResult) (h : runMonteCarlo env data col = some res) :
    res = mcResult env data col := by
  rcases runMonteCarlo_cases env data col with hc | hc
  · rw [hc] at h
    exact Option.noConfusion h
  · rw [hc] at h
    injection h with h
    exact h.symm

theorem pairwise_le_getD (l : List JsNum)
    (pw : l.Pairwise (fun x y => (JsNum.sub x y).posB = false))
    (hnn : ∀ x ∈ l, x ≠ JsNum.nan)
    (i j : ℕ) (hi : i < l.length) (hj : j < l.length) (hij : i < j) :
    (l.getD i JsNum.nan).leB (l.getD j JsNum.nan) = true := by
  rw [List.getD_eq_getElem?_getD, List.getElem?_eq_getElem hi,
    List.getD_eq_getElem?_getD, List.getElem?_eq_getElem hj, Option.getD_some,
    Option.getD_some]
  have hrel := List.pairwise_iff_get.mp pw ⟨i, hi⟩ ⟨j, hj⟩ hij
  exact (sub_posB_false_iff _ _
    (hnn _ (List.get_mem _ _ _))
    (hnn _ (List.get_mem _ _ _))).mp hrel

/-- Claim C8 (amended): whenever `runMonteCarlo` returns a result, the
reported floor-indexed percentiles satisfy p10 ≤ p50 ≤ p90 — non-strict,
for every outcome of the random source — provided no simulated draw is
NaN (with NaN draws JavaScript's sort order is implementation-defined);
equality occurs, e.g. for a constant random source. -/
theorem C8_percentiles_amended (env : JsEnv) (data : List Row) (col : String)
    (res : MonteCarloResult)
    (h : runMonteCarlo env data col = some res)
    (hn : JsNum.nan ∉ mcSimulations env res.mean res.std) :
    res.p10.leB res.p50 = true ∧ res.p50.leB res.p90 = true := by
  have hres := runMonteCarlo_fields env data col res h
  have hmean : res.mean = (calculateStats env (validCells data col)).mean := by
    rw [hres]; rfl
  have hstd : res.std = (calculateStats env (validCells data col)).std := by
    rw [hres]; rfl
  have e10 : res.p10 =
      (jsSortBy JsNum.sub (mcSimulations env res.mean res.std)).getD 100 JsNum.nan := by
    rw [hmean, hstd, hres]
    unfold mcResult
    simp only []
    rw [mcP10_eq]
  have e50 : res.p50 =
      (jsSortBy JsNum.sub (mcSimulations env res.mean res.std)).getD 500 JsNum.nan := by
    rw [hmean, hstd, hres]
    unfold mcResult
    simp only []
    rw [mcP50_eq]
  have e90 : res.p90 =
      (jsSortBy JsNum.sub (mcSimulations env res.mean res.std)).getD 900 JsNum.nan := by
    rw [hmean, hstd, hres]
    unfold mcResult
    simp only []
    rw [mcP90_eq]
  have hlen : (jsSortBy JsNum.sub (mcSimulations env res.mean res.std)).length = 1000 := by
    rw [jsSortBy_length, mcSimulations_length]
  have hnonnan : ∀ x ∈ mcSimulations env res.mean res.std, x ≠ JsNum.nan := by
    intro x hx e
    exact hn (e ▸ hx)
  have hsortnan : ∀ x ∈ jsSortBy JsNum.sub (mcSimulations env res.mean res.std),
      x ≠ JsNum.nan := by
    intro x hx
    exact hnonnan x ((jsSortBy_mem _ _ x).mp hx)
  have pw : (jsSortBy JsNum.sub (mcSimulations env res.mean res.std)).Pairwise
      (fun x y => (JsNum.sub x y).posB = false) := by
    refine pairwise_jsSortBy JsNum.sub _ ?_ ?_
    · intro x hx y hy hxy
      have hxn := hnonnan x hx
      have hyn := hnonnan y hy
      rcases leB_total x y hxn hyn with hle | hle
      · have hc := (sub_posB_false_iff x y hxn hyn).mpr hle
        rw [hxy] at hc
        exact absurd hc (by simp)
      · exact (sub_posB_false_iff y x hyn hxn).mpr hle
    · intro x hx y hy z hz h1 h2
      have hxn := hnonnan x hx
      have hyn := hnonnan y hy
      have hzn := hnonnan z hz
      exact (sub_posB_false_iff x z hxn hzn).mpr
        (leB_trans x y z ((sub_posB_false_iff x y hxn hyn).mp h1)
          ((sub_posB_false_iff y z hyn hzn).mp h2))
  rw [e10, e50, e90]
  exact ⟨pairwise_le_getD _ pw hsortnan 100 500 (by rw [hlen]; omega) (by rw [hlen]; omega)
      (by omega),
    pairwise_le_getD _ pw hsortnan 500 900 (by rw [hlen]; omega) (by rw [hlen]; omega)
      (by omega)⟩

/-- Claim C8, counterexample: with a constant random source (an outcome
the claim quantifies over) every simulated draw is identical, so the
returned percentiles satisfy p10 = p50 = p90 and the claimed strict
chain p10 < p50 < p90 fails, although the source column has 10 valid
values and nonzero mean and std. -/
theorem C8_counterexample :
    (runMonteCarlo env0 mcData "v").map
        (fun r => (r.p10.ltB r.p50, r.p50.ltB r.p90, r.p10, r.p50, r.p90)) =
      some (false, false, .fin (13 / 8), .fin (13 / 8), .fin (13 / 8)) := by
  with_unfolding_all rfl

/-- Witness for `C8_percentiles_amended`. -/
theorem C8_percentiles_amended_witness :
    runMonteCarlo env0 mcData "v" = some (mcResult env0 mcData "v") ∧
      JsNum.nan ∉ mcSimulations env0 (mcResult env0 mcData "v").mean
        (mcResult env0 mcData "v").std ∧
      ((mcResult env0 mcData "v").p10.leB (mcResult env0 mcData "v").p50 = true ∧
        (mcResult env0 mcData "v").p50.leB (mcResult env0 mcData "v").p90 = true) := by
  have h1 : runMonteCarlo env0 mcData "v" = some (mcResult env0 mcData "v") := by
    with_unfolding_all rfl
  have h2 : JsNum.nan ∉ mcSimulations env0 (mcResult env0 mcData "v").mean
      (mcResult env0 mcData "v").std := by
    with_unfolding_all decide
  exact ⟨h1, h2, C8_percentiles_amended env0 mcData "v" _ h1 h2⟩

theorem addToGroups_keys (k : String) (r : Row) (gs : List (String × List Row)) :
    (addToGroups k r gs).map Prod.fst =
      if k ∈ gs.map Prod.fst then gs.map Prod.fst else gs.map Prod.fst ++ [k] := by
  induction gs with
  | nil => simp [addToGroups]
  | cons g gs ih =>
    obtain ⟨k', rs⟩ := g
    unfold addToGroups
    by_cases e : k' = k
    · subst e
      simp
    · rw [if_neg e]
      by_cases m : k ∈ gs.map Prod.fst
      · simp [m, ih, Ne.symm e]
      · simp [m, ih, Ne.symm e]

theorem mem_addToGroups (k : String) (r : Row) (gs : List (String × List Row))
    (hnd : (gs.map Prod.fst).Nodup) :
    ∀ g ∈ addToGroups k r gs,
      (g.1 ≠ k ∧ g ∈ gs) ∨
      (∃ rs, g = (k, rs ++ [r]) ∧ (k, rs) ∈ gs) ∨
      (g = (k, [r]) ∧ k ∉ gs.map Prod.fst) := by
  induction gs with
  | nil =>
    intro g hg
    rcases List.mem_singleton.mp hg with rfl
    exact Or.inr (Or.inr ⟨rfl, by simp⟩)
  | cons p ps ih =>
    obtain ⟨k', rs'⟩ := p
    intro g hg
    rw [List.map_cons, List.nodup_cons] at hnd
    unfold addToGroups at hg
    by_cases e : k' = k
    · subst e
      rw [if_pos rfl] at hg
      rcases List.mem_cons.mp hg with rfl | hg
      · exact Or.inr (Or.inl ⟨rs', rfl, List.mem_cons_self _ _⟩)
      · left
        refine ⟨?_, List.mem_cons_of_mem _ hg⟩
        intro e2
        have hm : g.1 ∈ ps.map Prod.fst := List.mem_map_of_mem Prod.fst hg
        rw [e2] at hm
        exact hnd.1 hm
    · rw [if_neg e] at hg
      rcases List.mem_cons.mp hg with rfl | hg
      · exact Or.inl ⟨e, List.mem_cons_self _ _⟩
      · rcases ih hnd.2 g hg with h1 | h1 | h1
        · exact Or.inl ⟨h1.1, List.mem_cons_of_mem _ h1.2⟩
        · rcases h1 with ⟨rs, e1, e2⟩
          exact Or.inr (Or.inl ⟨rs, e1, List.mem_cons_of_mem _ e2⟩)
        · refine Or.inr (Or.inr ⟨h1.1, ?_⟩)
          rw [List.map_cons, List.mem_cons]
          rintro (e2 | e2)
          · exact e (e2.symm)
          · exact h1.2 e2

theorem groupsInv_step (lbl : Row → String) (pre : List Row)
    (gs : List (String × List Row)) (r : Row) (h : GroupsInv lbl pre gs) :
    GroupsInv lbl (pre ++ [r]) (addToGroups (lbl r) r gs) := by
  obtain ⟨hnd, hfil, hall, hex⟩ := h
  refine ⟨?_, ?_, ?_, ?_⟩
  · rw [addToGroups_keys]
    by_cases m : lbl r ∈ gs.map Prod.fst
    · rw [if_pos m]; exact hnd
    · rw [if_neg m]
      refine List.Nodup.append hnd (List.nodup_singleton _) ?_
      intro a ha hb
      rcases List.mem_singleton.mp hb with rfl
      exact m ha
  · intro g hg
    rcases mem_addToGroups (lbl r) r gs hnd g hg with h1 | h1 | h1
    · have hc : (decide (lbl r = g.1)) = false := by
        simp only [decide_eq_false_iff_not]
        intro e2
        exact h1.1 e2.symm
      rw [hfil g h1.2, List.filter_append]
      simp [List.filter_cons, hc]
    · rcases h1 with ⟨rs, rfl, hmem⟩
      have he := hfil _ hmem
      simp only at he
      show rs ++ [r] = _
      rw [he, List.filter_append]
      simp [List.filter_cons]
    · rcases h1 with ⟨rfl, hnot⟩
      show [r] = _
      have hpre : pre.filter (fun r' => decide (lbl r' = lbl r)) = [] := by
        rw [List.filter_eq_nil_iff]
        intro a ha hc
        exact hnot ((by simpa using hc : lbl a = lbl r) ▸ hall a ha)
      rw [List.filter_append, hpre]
      simp [List.filter_cons]
  · intro r' hr'
    rw [addToGroups_keys]
    rcases List.mem_append.mp hr' with hr' | hr'
    · by_cases m : lbl r ∈ gs.map Prod.fst
      · rw [if_pos m]; exact hall r' hr'
      · rw [if_neg m]; exact List.mem_append_left _ (hall r' hr')
    · rcases List.mem_singleton.mp hr' with rfl
      by_cases m : lbl r' ∈ gs.map Prod.fst
      · rw [if_pos m]; exact m
      · rw [if_neg m]; exact List.mem_append_right _ (List.mem_singleton.mpr rfl)
  · intro k hk
    rw [addToGroups_keys] at hk
    by_cases m : lbl r ∈ gs.map Prod.fst
    · rw [if_pos m] at hk
      rcases hex k hk with ⟨r', h1, h2⟩
      exact ⟨r', List.mem_append_left _ h1, h2⟩
    · rw [if_neg m] at hk
      rcases List.mem_append.mp hk with hk | hk
      · rcases hex k hk with ⟨r', h1, h2⟩
        exact ⟨r', List.mem_append_left _ h1, h2⟩
      · rcases List.mem_singleton.mp hk with rfl
        exact ⟨r, List.mem_append_right _ (List.mem_singleton.mpr rfl), rfl⟩

theorem groupsInv_foldl (lbl : Row → String) :
    ∀ (l pre : List Row) (gs : List (String × List Row)),
      GroupsInv lbl pre gs →
      GroupsInv lbl (pre ++ l) (l.foldl (fun gs r => addToGroups (lbl r) r gs) gs) := by
  intro l
  induction l with
  | nil =>
    intro pre gs h
    simpa using h
  | cons r rs ih =>
    intro pre gs h
    have h3 := ih (pre ++ [r]) _ (groupsInv_step lbl pre gs r h)
    simpa using h3

theorem groupRows_spec (lbl : Row → String) (l : List Row) :
    ((groupRows lbl l).map Prod.fst).Nodup ∧
    (∀ g ∈ groupRows lbl l, g.2 = l.filter (fun r => lbl r = g.1)) ∧
    (∀ r ∈ l, lbl r ∈ (groupRows lbl l).map Prod.fst) ∧
    (∀ k ∈ (groupRows lbl l).map Prod.fst, ∃ r ∈ l, lbl r = k) := by
  have h := groupsInv_foldl lbl l [] [] ⟨List.nodup_nil, by simp, by simp, by simp⟩
  simpa [groupRows, GroupsInv] using h

theorem groupRows_nonempty (lbl : Row → String) (l : List Row) :
    ∀ g ∈ groupRows lbl l, g.2 ≠ [] := by
  intro g hg
  have spec := groupRows_spec lbl l
  rcases spec.2.2.2 g.1 (List.mem_map_of_mem Prod.fst hg) with ⟨r, hr, he⟩
  rw [spec.2.1 g hg]
  intro hcontra
  rw [List.filter_eq_nil_iff] at hcontra
  exact hcontra r hr (by simpa using he)

theorem rowGet_rowSet_self (r : Row) (k : String) (v : JsVal) :
    rowGet (rowSet r k v) k = some v := by
  induction r with
  | nil => simp [rowSet, rowGet]
  | cons p rest ih =>
    obtain ⟨k', v'⟩ := p
    unfold rowSet
    by_cases e : k' = k
    · rw [if_pos e]
      simp [rowGet]
    · rw [if_neg e]
      unfold rowGet at ih ⊢
      rw [List.find?_cons_of_neg]
      · exact ih
      · simpa using e

theorem rowGet_rowSet_ne (r : Row) (k k' : String) (v : JsVal) (h : k' ≠ k) :
    rowGet (rowSet r k v) k' = rowGet r k' := by
  induction r with
  | nil =>
    unfold rowSet rowGet
    rw [List.find?_cons_of_neg]
    simpa using fun e2 => h e2.symm
  | cons p rest ih =>
    obtain ⟨k2, v2⟩ := p
    unfold rowSet
    by_cases e : k2 = k
    · rw [if_pos e]
      unfold rowGet
      rw [List.find?_cons_of_neg, List.find?_cons_of_neg]
      · simpa using fun e2 => h (e2.symm.trans e)
      · simpa using fun e2 => h e2.symm
    · rw [if_neg e]
      unfold rowGet at ih ⊢
      by_cases e2 : k2 = k'
      · rw [List.find?_cons_of_pos, List.find?_cons_of_pos] <;> simp [e2]
      · rw [List.find?_cons_of_neg, List.find?_cons_of_neg]
        · exact ih
        · simpa using e2
        · simpa using e2

theorem rowGet_foldl_writes (f : String → JsVal) (keys : List String) :
    ∀ (init : Row) (k : String),
      rowGet (keys.foldl (fun rec y => rowSet rec y (f y)) init) k =
        if k ∈ keys then some (f k) else rowGet init k := by
  induction keys with
  | nil =>
    intro init k
    simp
  | cons y ys ih =>
    intro init k
    rw [List.foldl_cons, ih]
    by_cases m : k ∈ ys
    · rw [if_pos m, if_pos (List.mem_cons_of_mem _ m)]
    · rw [if_neg m]
      by_cases e : y = k
      · subst e
        rw [if_pos (List.mem_cons_self _ _), rowGet_rowSet_self]
      · have hnotin : ¬ k ∈ y :: ys := by
          intro hc
          rcases List.mem_cons.mp hc with e2 | e2
          · exact e e2.symm
          · exact m e2
        rw [if_neg hnotin]
        exact rowGet_rowSet_ne _ _ _ _ (fun e2 => e e2.symm)

theorem aggRecord_get (data : List Row) (cfg : ChartConfig) (k : String)
    (rows : List Row) (yKey : String) (hy : yKey ∈ cfg.dataKeys) :
    rowGet (aggRecord data cfg k rows) yKey = some (aggValue data rows yKey) := by
  unfold aggRecord
  rw [if_neg (List.ne_nil_of_mem hy), rowGet_foldl_writes, if_pos hy]

theorem aggRecord_label (data : List Row) (cfg : ChartConfig) (k : String)
    (rows : List Row) (hx1 : cfg.xAxisKey ∉ cfg.dataKeys) (hx2 : cfg.xAxisKey ≠ "count") :
    rowGet (aggRecord data cfg k rows) cfg.xAxisKey = some (.str k) := by
  unfold aggRecord
  by_cases e : cfg.dataKeys = []
  · rw [if_pos e, rowGet_rowSet_ne _ _ _ _ hx2]
    simp [rowGet]
  · rw [if_neg e, rowGet_foldl_writes, if_neg hx1]
    simp [rowGet]

theorem aggRecord_recLabel (data : List Row) (cfg : ChartConfig) (k : String)
    (rows : List Row) (hx1 : cfg.xAxisKey ∉ cfg.dataKeys) (hx2 : cfg.xAxisKey ≠ "count") :
    recLabel cfg (aggRecord data cfg k rows) = k := by
  unfold recLabel
  rw [aggRecord_label data cfg k rows hx1 hx2]
  rfl

theorem aggValue_numeric (data rows : List Row) (yKey : String)
    (hn : isNumericCol data yKey = true) (hne : rows ≠ []) :
    aggValue data rows yKey = .num (claimGroupMean rows yKey) := by
  unfold aggValue claimGroupMean
  rw [if_pos hn, List.foldl_map]
  have hlen : ¬ rows.length = 0 := by
    simpa [List.length_eq_zero] using hne
  simp [hlen]

theorem prepareVisualData_barline (env : JsEnv) (data : List Row) (cfg : ChartConfig)
    (hk : cfg.type = .bar ∨ cfg.type = .line) :
    prepareVisualData env data cfg = jsSortBy (cmpRec env cfg) (aggRecords data cfg) := by
  rcases hk with h | h <;> simp [prepareVisualData, h]

theorem mem_aggRecords (data : List Row) (cfg : ChartConfig) (rec : Row)
    (h : rec ∈ aggRecords data cfg) :
    ∃ g ∈ groupRows (groupLabel (workingDataOf data cfg).2) (workingDataOf data cfg).1,
      rec = aggRecord data cfg g.1 g.2 := by
  unfold aggRecords at h
  rcases List.mem_map.mp h with ⟨g, hg, he⟩
  exact ⟨g, hg, he.symm⟩

/-- Claim C10: for every bar/line group and every requested numeric y-key,
the record the preparer emits holds exactly the claim's formula: the sum
over ALL rows of the group of `Number(row[yKey])` with NaN coercions
contributing 0, divided by the total group row count (missing or
non-numeric values still count in the denominator), rounded to 2 decimal
places, with 0 substituted when the result is not finite; the group is
the full label-fiber of the working data. -/
theorem C10_group_mean (env : JsEnv) (data : List Row) (cfg : ChartConfig)
    (yKey : String) (rec : Row)
    (hk : cfg.type = .bar ∨ cfg.type = .line)
    (hy : yKey ∈ cfg.dataKeys)
    (hn : isNumericCol data yKey = true)
    (hrec : rec ∈ prepareVisualData env data cfg) :
    ∃ k : String, ∃ rows : List Row,
      rows = (workingDataOf data cfg).1.filter
        (fun r => groupLabel (workingDataOf data cfg).2 r = k) ∧
      rows ≠ [] ∧
      rowGet rec yKey = some (.num (claimGroupMean rows yKey)) := by
  rw [prepareVisualData_barline env data cfg hk, jsSortBy_mem] at hrec
  rcases mem_aggRecords data cfg rec hrec with ⟨g, hg, rfl⟩
  have spec := groupRows_spec (groupLabel (workingDataOf data cfg).2) (workingDataOf data cfg).1
  have hne := groupRows_nonempty (groupLabel (workingDataOf data cfg).2)
    (workingDataOf data cfg).1 g hg
  refine ⟨g.1, g.2, spec.2.1 g hg, hne, ?_⟩
  rw [aggRecord_get data cfg g.1 g.2 yKey hy, aggValue_numeric data g.2 yKey hn hne]

/-- Witness for `C10_group_mean`. -/
theorem C10_group_mean_witness :
    [("g", JsVal.str "a"), ("v", JsVal.num (.fin (1 / 2)))] ∈
        prepareVisualData env0 barData barCfg ∧
      (∃ k : String, ∃ rows : List Row,
        rows = (workingDataOf barData barCfg).1.filter
          (fun r => groupLabel (workingDataOf barData barCfg).2 r = k) ∧
        rows ≠ [] ∧
        rowGet [("g", JsVal.str "a"), ("v", JsVal.num (.fin (1 / 2)))] "v" =
          some (.num (claimGroupMean rows "v"))) := by
  have hrec : [("g", JsVal.str "a"), ("v", JsVal.num (.fin (1 / 2)))] ∈
      prepareVisualData env0 barData barCfg := by
    with_unfolding_all decide
  exact ⟨hrec, C10_group_mean env0 barData barCfg "v" _ (Or.inl rfl) (by decide)
    (by with_unfolding_all decide) hrec⟩

theorem cmpLabel_le_claimLE (env : JsEnv) (a b : String)
    (h : (cmpLabel env a b).posB = false) : claimLE env a b = true := by
  unfold cmpLabel at h
  unfold claimLE
  by_cases ha : a = "Unknown"
  · rw [if_pos ha] at h
    exact absurd h (by simp [JsNum.posB])
  · rw [if_neg ha] at h
    by_cases hb : b = "Unknown"
    · rw [if_pos hb]
    · rw [if_neg hb] at h
      rw [if_neg hb, if_neg ha]
      by_cases ha2 : a = "Others"
      · rw [if_pos ha2] at h
        exact absurd h (by simp [JsNum.posB])
      · rw [if_neg ha2] at h
        by_cases hb2 : b = "Others"
        · rw [if_pos hb2]
        · rw [if_neg hb2] at h
          rw [if_neg hb2, if_neg ha2]
          cases hea : extractNum a with
          | some x =>
            cases heb : extractNum b with
            | some y =>
              rw [hea, heb] at h
              simp only [JsNum.posB, decide_eq_false_iff_not, not_lt, sub_nonpos] at h
              simpa using h
            | none =>
              rw [hea, heb] at h
              cases hda : env.dateParse a with
              | some x2 =>
                cases hdb : env.dateParse b with
                | some y2 =>
                  rw [hda, hdb] at h
                  simp only [JsNum.posB, decide_eq_false_iff_not, not_lt, sub_nonpos] at h
                  simp only [hda, hdb]
                  simpa using h
                | none =>
                  rw [hda, hdb] at h
                  simp only [hda, hdb]
                  simp only [JsNum.posB, decide_eq_false_iff_not, not_lt] at h
                  simpa using h
              | none =>
                rw [hda] at h
                simp only [hda]
                simp only [JsNum.posB, decide_eq_false_iff_not, not_lt] at h
                simpa using h
          | none =>
            rw [hea] at h
            cases hda : env.dateParse a with
            | some x2 =>
              cases hdb : env.dateParse b with
              | some y2 =>
                rw [hda, hdb] at h
                simp only [JsNum.posB, decide_eq_false_iff_not, not_lt, sub_nonpos] at h
                simp only [hda, hdb]
                simpa using h
              | none =>
                rw [hda, hdb] at h
                simp only [hda, hdb]
                simp only [JsNum.posB, decide_eq_false_iff_not, not_lt] at h
                simpa using h
            | none =>
              rw [hda] at h
              simp only [hda]
              simp only [JsNum.posB, decide_eq_false_iff_not, not_lt] at h
              simpa using h

theorem tail0LE_total (a b : String) : tail0LE a b ∨ tail0LE b a := by
  unfold tail0LE
  cases extractNum a with
  | some x =>
    cases extractNum b with
    | some y => exact le_total x y
    | none => exact Or.inl trivial
  | none =>
    cases extractNum b with
    | some y => exact Or.inr trivial
    | none => exact Or.inl trivial

theorem tail0LE_trans (a b c : String) :
    tail0LE a b → tail0LE b c → tail0LE a c := by
  unfold tail0LE
  cases extractNum a with
  | some x =>
    cases extractNum b with
    | some y =>
      cases extractNum c with
      | some z => exact fun h1 h2 => le_trans h1 h2
      | none => exact fun _ _ => trivial
    | none =>
      cases extractNum c with
      | some z => exact fun _ h2 => h2.elim
      | none => exact fun _ _ => trivial
  | none =>
    cases extractNum b with
    | some y =>
      cases extractNum c with
      | some z => exact fun h1 _ => h1.elim
      | none => exact fun h1 _ => h1.elim
    | none =>
      cases extractNum c with
      | some z => exact fun _ h2 => h2.elim
      | none => exact fun _ _ => trivial

theorem LE0_total (a b : String) : LE0 a b ∨ LE0 b a := by
  unfold LE0
  by_cases hb : b = "Unknown"
  · exact Or.inl (Or.inl hb)
  · by_cases ha : a = "Unknown"
    · exact Or.inr (Or.inl ha)
    · by_cases hb2 : b = "Others"
      · exact Or.inl (Or.inr (Or.inl ⟨ha, hb2⟩))
      · by_cases ha2 : a = "Others"
        · exact Or.inr (Or.inr (Or.inl ⟨hb, ha2⟩))
        · rcases tail0LE_total a b with h | h
          · exact Or.inl (Or.inr (Or.inr ⟨ha, ha2, hb, hb2, h⟩))
          · exact Or.inr (Or.inr (Or.inr ⟨hb, hb2, ha, ha2, h⟩))

theorem LE0_trans (a b c : String) : LE0 a b → LE0 b c → LE0 a c := by
  intro h1 h2
  rcases h2 with h2 | h2 | h2
  · exact Or.inl h2
  · rcases h1 with h1 | h1 | h1
    · exact absurd h1 h2.1
    · exact Or.inr (Or.inl ⟨h1.1, h2.2⟩)
    · exact Or.inr (Or.inl ⟨h1.1, h2.2⟩)
  · rcases h1 with h1 | h1 | h1
    · exact absurd h1 h2.1
    · exact absurd h1.2 h2.2.1
    · exact Or.inr (Or.inr ⟨h1.1, h1.2.1, h2.2.2.1, h2.2.2.2.1,
        tail0LE_trans a b c h1.2.2.2.2 h2.2.2.2.2⟩)

theorem lcmp0_le_iff (a b : String) : lcmp0 a b ≤ 0 ↔ tail0LE a b := by
  unfold lcmp0 tail0LE
  cases extractNum a with
  | some x =>
    cases extractNum b with
    | some y =>
      by_cases h : x < y
      · simp [h, le_of_lt h]
      · by_cases h2 : y < x
        · simp [h, h2, not_le_of_lt h2]
        · simp [h, h2, le_of_not_lt h2]
    | none => simp
  | none =>
    cases extractNum b with
    | some y => simp
    | none => simp

theorem posB_ofInt (z : ℤ) : ((JsNum.fin (z : ℚ)).posB = false) ↔ z ≤ 0 := by
  simp only [JsNum.posB, decide_eq_false_iff_not, not_lt]
  constructor
  · intro h
    exact_mod_cast h
  · intro h
    exact_mod_cast h

theorem cmpLabel0_false_iff (a b : String) (hab : a ≠ b) :
    ((cmpLabel env0 a b).posB = false) ↔ LE0 a b := by
  unfold cmpLabel
  by_cases ha : a = "Unknown"
  · subst ha
    rw [if_pos rfl]
    have hbU : ¬ b = "Unknown" := fun h => hab h.symm
    constructor
    · intro h
      exact absurd h (by norm_num [JsNum.posB])
    · rintro (h | h | h)
      · exact absurd h hbU
      · exact absurd rfl h.1
      · exact absurd rfl h.1
  · rw [if_neg ha]
    by_cases hb : b = "Unknown"
    · rw [if_pos hb]
      refine ⟨fun _ => Or.inl hb, fun _ => by norm_num [JsNum.posB]⟩
    · rw [if_neg hb]
      by_cases ha2 : a = "Others"
      · subst ha2
        rw [if_pos rfl]
        have hbO : ¬ b = "Others" := fun h => hab h.symm
        constructor
        · intro h
          exact absurd h (by norm_num [JsNum.posB])
        · rintro (h | h | h)
          · exact absurd h hb
          · exact absurd h.2 hbO
          · exact absurd rfl h.2.1
      · rw [if_neg ha2]
        by_cases hb2 : b = "Others"
        · rw [if_pos hb2]
          refine ⟨fun _ => Or.inr (Or.inl ⟨ha, hb2⟩), fun _ => by norm_num [JsNum.posB]⟩
        · rw [if_neg hb2]
          have hLE : LE0 a b ↔ tail0LE a b := by
            constructor
            · rintro (h | h | h)
              · exact absurd h hb
              · exact absurd h.2 hb2
              · exact h.2.2.2.2
            · intro h
              exact Or.inr (Or.inr ⟨ha, ha2, hb, hb2, h⟩)
          rw [hLE]
          have hdp : env0.dateParse = fun _ => none := rfl
          have hlc : env0.localeCmp = lcmp0 := rfl
          rw [hdp, hlc]
          cases hea : extractNum a with
          | some x =>
            cases heb : extractNum b with
            | some y =>
              simp only [JsNum.posB, decide_eq_false_iff_not, not_lt, sub_nonpos]
              unfold tail0LE
              rw [hea, heb]
            | none =>
              simp only []
              rw [posB_ofInt, lcmp0_le_iff]
          | none =>
            simp only []
            rw [posB_ofInt, lcmp0_le_iff]

theorem cmpLabel0_Hc (a b : String) (hab : a ≠ b)
    (h : (cmpLabel env0 a b).posB = true) : (cmpLabel env0 b a).posB = false := by
  rw [cmpLabel0_false_iff b a hab.symm]
  rcases LE0_total a b with h2 | h2
  · have hf := (cmpLabel0_false_iff a b hab).mpr h2
    rw [h] at hf
    exact Bool.noConfusion hf
  · exact h2

theorem cmpLabel0_Ht (a b c : String) (hab : a ≠ b) (hbc : b ≠ c) (hac : a ≠ c)
    (h1 : (cmpLabel env0 a b).posB = false) (h2 : (cmpLabel env0 b c).posB = false) :
    (cmpLabel env0 a c).posB = false := by
  rw [cmpLabel0_false_iff a b hab] at h1
  rw [cmpLabel0_false_iff b c hbc] at h2
  rw [cmpLabel0_false_iff a c hac]
  exact LE0_trans a b c h1 h2

theorem aggRecords_labels_nodup (data : List Row) (cfg : ChartConfig)
    (hx1 : cfg.xAxisKey ∉ cfg.dataKeys) (hx2 : cfg.xAxisKey ≠ "count") :
    ((aggRecords data cfg).map (recLabel cfg)).Nodup := by
  unfold aggRecords
  rw [List.map_map]
  have spec := groupRows_spec (groupLabel (workingDataOf data cfg).2) (workingDataOf data cfg).1
  have he : ∀ g ∈ groupRows (groupLabel (workingDataOf data cfg).2) (workingDataOf data cfg).1,
      (recLabel cfg ∘ fun g => aggRecord data cfg g.1 g.2) g = Prod.fst g := by
    intro g hg
    simp [aggRecord_recLabel data cfg g.1 g.2 hx1 hx2]
  rw [List.map_congr_left he]
  exact spec.1

/-- Claim C5 (amended: of the two special labels, `Others` precedes
`Unknown`, not the other way around): for bar and line charts, whenever
the x-axis key is not among the y-keys and is not the reserved name
`count`, and the environment's label comparator is consistent and
transitive on distinct labels, the labels of the prepared records are
pairwise ordered by the composite rule: every label precedes `Unknown`;
every non-`Unknown` label precedes `Others`; among the remaining labels,
two with a leading numeric token are ordered by that number, else two
that both parse as dates are ordered chronologically, else by the locale
comparator. -/
theorem C5_label_order_amended (env : JsEnv) (data : List Row) (cfg : ChartConfig)
    (hk : cfg.type = .bar ∨ cfg.type = .line)
    (hx1 : cfg.xAxisKey ∉ cfg.dataKeys) (hx2 : cfg.xAxisKey ≠ "count")
    (Hc : ∀ a b : String, a ≠ b →
      (cmpLabel env a b).posB = true → (cmpLabel env b a).posB = false)
    (Ht : ∀ a b c : String, a ≠ b → b ≠ c → a ≠ c →
      (cmpLabel env a b).posB = false → (cmpLabel env b c).posB = false →
      (cmpLabel env a c).posB = false) :
    ((prepareVisualData env data cfg).map (recLabel cfg)).Pairwise
      (fun a b => claimLE env a b = true) := by
  rw [prepareVisualData_barline env data cfg hk]
  have hnd : ((aggRecords data cfg).map (recLabel cfg)).Nodup :=
    aggRecords_labels_nodup data cfg hx1 hx2
  have hndrec : (aggRecords data cfg).Nodup := List.Nodup.of_map _ hnd
  have hinj := List.inj_on_of_nodup_map hnd
  have hpw : (jsSortBy (cmpRec env cfg) (aggRecords data cfg)).Pairwise
      (fun x y => (cmpRec env cfg x y).posB = false) := by
    refine pairwise_jsSortByN (cmpRec env cfg) (aggRecords data cfg) hndrec ?_ ?_
    · intro x hx y hy hxy h
      exact Hc (recLabel cfg x) (recLabel cfg y) (fun e => hxy (hinj hx hy e)) h
    · intro x hx y hy z hz hxy hyz hxz h1 h2
      exact Ht _ _ _ (fun e => hxy (hinj hx hy e)) (fun e => hyz (hinj hy hz e))
        (fun e => hxz (hinj hx hz e)) h1 h2
  rw [List.pairwise_map]
  exact hpw.imp (fun h => cmpLabel_le_claimLE env _ _ h)

/-- Counterexample to claim C5 as stated: with the labels `Unknown`,
`Others` and `A` all present, the sorted label order is
`A, Others, Unknown` — `Others` precedes `Unknown`, not the claimed
`Unknown` before `Others`. -/
theorem C5_counterexample :
    (prepareVisualData env0 data5 barCfg).map (recLabel barCfg) =
        ["A", "Others", "Unknown"] ∧
      (prepareVisualData env0 data5 barCfg).map (recLabel barCfg) ≠
        ["A", "Unknown", "Others"] := by
  constructor
  · with_unfolding_all decide
  · with_unfolding_all decide

/-- Witness for `C5_label_order_amended`. -/
theorem C5_label_order_amended_witness :
    ((prepareVisualData env0 data5 barCfg).map (recLabel barCfg)).Pairwise
      (fun a b => claimLE env0 a b = true) :=
  C5_label_order_amended env0 data5 barCfg (Or.inl rfl) (by decide) (by decide)
    (fun a b hab h => cmpLabel0_Hc a b hab h)
    (fun a b c hab hbc hac h1 h2 => cmpLabel0_Ht a b c hab hbc hac h1 h2)

theorem jsSubV_finCell (x y : ℚ) :
    jsSubV (finCell x) (finCell y) = .fin (x - y) := by
  show JsNum.fin (x + -y) = JsNum.fin (x - y)
  rw [sub_eq_add_neg]

theorem insertCmp_map_finCell (x : ℚ) (l : List ℚ) :
    insertCmp jsSubV (finCell x) (l.map finCell) =
      (List.orderedInsert (fun a b => a ≤ b) x l).map finCell := by
  induction l with
  | nil => rfl
  | cons y ys ih =>
    rw [List.map_cons, insertCmp, List.orderedInsert]
    by_cases h : x ≤ y
    · have hb : (jsSubV (finCell x) (finCell y)).posB = false := by
        rw [jsSubV_finCell]
        simp only [JsNum.posB, decide_eq_false_iff_not, not_lt, sub_nonpos]
        exact h
      rw [hb, if_pos h]
      simp
    · have hb : (jsSubV (finCell x) (finCell y)).posB = true := by
        rw [jsSubV_finCell]
        simp only [JsNum.posB, decide_eq_true_iff, sub_pos]
        exact lt_of_not_le h
      rw [hb, if_neg h]
      simp [ih]

theorem jsSortBy_map_finCell (l : List ℚ) :
    jsSortBy jsSubV (l.map finCell) =
      (List.insertionSort (fun a b => a ≤ b) l).map finCell := by
  induction l with
  | nil => rfl
  | cons a as ih =>
    rw [List.map_cons, jsSortBy, ih, List.insertionSort, insertCmp_map_finCell]

theorem jsSortVals_map_finCell (l : List ℚ) :
    jsSortVals (l.map (fun q => some (finCell q))) =
      (List.insertionSort (fun a b => a ≤ b) l).map (fun q => some (finCell q)) := by
  unfold jsSortVals
  have hdef : (l.map (fun q => some (finCell q))).filterMap id = l.map finCell := by
    rw [List.filterMap_map]
    have he : (id ∘ fun q => some (finCell q)) = (some ∘ finCell) := rfl
    rw [he, List.filterMap_eq_map]
  rw [hdef]
  simp only [List.length_map, Nat.sub_self, List.replicate_zero, List.append_nil,
    jsSortBy_map_finCell, List.map_map]
  rfl

theorem map_rowGet_finCells (data : List Row) (col : String)
    (H : ∀ r ∈ data, isFinNumCell (rowGet r col) = true) :
    data.map (fun row => rowGet row col) =
      (data.map (fun r => cellQ r col)).map (fun q => some (finCell q)) := by
  rw [List.map_map]
  refine List.map_congr_left ?_
  intro r hr
  have h := H r hr
  cases e : rowGet r col with
  | none => rw [e] at h; simp [isFinNumCell] at h
  | some v =>
    cases v with
    | num n =>
      cases n with
      | fin q => simp [Function.comp, cellQ, e, finCell]
      | inf s => rw [e] at h; simp [isFinNumCell] at h
      | nan => rw [e] at h; simp [isFinNumCell] at h
    | str s => rw [e] at h; simp [isFinNumCell] at h
    | bool b => rw [e] at h; simp [isFinNumCell] at h
    | null => rw [e] at h; simp [isFinNumCell] at h

theorem toNumber_cellQ (r : Row) (col : String)
    (h : isFinNumCell (rowGet r col) = true) :
    toNumber (rowGet r col) = .fin (cellQ r col) := by
  cases e : rowGet r col with
  | none => rw [e] at h; simp [isFinNumCell] at h
  | some v =>
    cases v with
    | num n =>
      cases n with
      | fin q => simp [toNumber, cellQ, e]
      | inf s => rw [e] at h; simp [isFinNumCell] at h
      | nan => rw [e] at h; simp [isFinNumCell] at h
    | str s => rw [e] at h; simp [isFinNumCell] at h
    | bool b => rw [e] at h; simp [isFinNumCell] at h
    | null => rw [e] at h; simp [isFinNumCell] at h

theorem getD_map_lt (f : α → β) (l : List α) (i : ℕ) (h : i < l.length)
    (d : β) (e : α) : (l.map f).getD i d = f (l.getD i e) := by
  rw [List.getD_eq_getElem?_getD, List.getElem?_map, List.getD_eq_getElem?_getD,
    List.getElem?_eq_getElem h]
  rfl

theorem floorIdx_lt (n : ℕ) (hn : 0 < n) (c : ℚ) (hc0 : 0 ≤ c) (hc1 : c < 1) :
    (⌊(n : ℚ) * c⌋).toNat < n := by
  have h1 : ⌊(n : ℚ) * c⌋ < (n : ℤ) := by
    rw [Int.floor_lt]
    push_cast
    have hn1 : (0 : ℚ) < (n : ℚ) := by exact_mod_cast hn
    nlinarith
  omega

theorem colFences_spec (data : List Row) (col : String)
    (H : ∀ r ∈ data, isFinNumCell (rowGet r col) = true) (hne : data ≠ []) :
    colFences data col =
      (.fin (specFences data col).1, .fin (specFences data col).2) := by
  have hn : 0 < data.length := List.length_pos.mpr hne
  simp only [colFences, specFences]
  rw [map_rowGet_finCells data col H, jsSortVals_map_finCell]
  have hslen : (List.insertionSort (fun a b => a ≤ b)
      (data.map (fun r => cellQ r col))).length = data.length := by
    rw [(List.perm_insertionSort _ _).length_eq, List.length_map]
  rw [List.length_map, hslen]
  have h1 : (⌊(data.length : ℚ) * (1 / 4)⌋).toNat <
      (List.insertionSort (fun a b => a ≤ b) (data.map (fun r => cellQ r col))).length := by
    rw [hslen]
    exact floorIdx_lt data.length hn (1 / 4) (by norm_num) (by norm_num)
  have h3 : (⌊(data.length : ℚ) * (3 / 4)⌋).toNat <
      (List.insertionSort (fun a b => a ≤ b) (data.map (fun r => cellQ r col))).length := by
    rw [hslen]
    exact floorIdx_lt data.length hn (3 / 4) (by norm_num) (by norm_num)
  rw [getD_map_lt _ _ _ h1 none 0, getD_map_lt _ _ _ h3 none 0]
  simp only [toNumber, finCell, JsNum.sub, JsNum.neg, JsNum.add, JsNum.mul, Prod.mk.injEq]
  refine ⟨?_, ?_⟩ <;> (congr 1; ring)

theorem rowFlagged_iff_specOutlier (data : List Row) (col : String) (r : Row)
    (H : ∀ r ∈ data, isFinNumCell (rowGet r col) = true) (hr : r ∈ data) :
    rowFlagged data col r = true ↔ specOutlier data col r := by
  have hne : data ≠ [] := List.ne_nil_of_mem hr
  unfold rowFlagged specOutlier
  rw [colFences_spec data col H hne, toNumber_cellQ r col (H r hr)]
  simp [JsNum.ltB, JsNum.gtB]

theorem colScan_fold_mem (data : List Row) (col : String)
    (ps : List (ℕ × Row)) (acc : List ℕ) (i : ℕ) :
    (i ∈ ps.foldl
        (fun acc2 p =>
          if rowFlagged data col p.2 && !(acc2.contains p.1) then acc2 ++ [p.1]
          else acc2)
        acc) ↔
      i ∈ acc ∨ ∃ r, (i, r) ∈ ps ∧ rowFlagged data col r = true := by
  induction ps generalizing acc with
  | nil => simp
  | cons p ps ih =>
    rw [List.foldl_cons, ih]
    constructor
    · rintro (h | h)
      · by_cases c : (rowFlagged data col p.2 && !(acc.contains p.1)) = true
        · rw [if_pos c] at h
          rcases List.mem_append.mp h with h | h
          · exact Or.inl h
          · have he : i = p.1 := by simpa using h
            subst he
            have hc2 := c
            rw [Bool.and_eq_true] at hc2
            exact Or.inr ⟨p.2, List.mem_cons_self _ _, hc2.1⟩
        · rw [if_neg c] at h
          exact Or.inl h
      · rcases h with ⟨r, hr, hf⟩
        exact Or.inr ⟨r, List.mem_cons_of_mem _ hr, hf⟩
    · rintro (h | h)
      · left
        by_cases c : (rowFlagged data col p.2 && !(acc.contains p.1)) = true
        · rw [if_pos c]
          exact List.mem_append_left _ h
        · rw [if_neg c]
          exact h
      · rcases h with ⟨r, hr, hf⟩
        rcases List.mem_cons.mp hr with he | hr2
        · have hp1 : p.1 = i := by rw [← he]
          have hp2 : p.2 = r := by rw [← he]
          by_cases hin : i ∈ acc
          · left
            by_cases c : (rowFlagged data col p.2 && !(acc.contains p.1)) = true
            · rw [if_pos c]
              exact List.mem_append_left _ hin
            · rw [if_neg c]
              exact hin
          · left
            have c : (rowFlagged data col p.2 && !(acc.contains p.1)) = true := by
              rw [Bool.and_eq_true, hp1, hp2]
              refine ⟨hf, ?_⟩
              simp [hin]
            rw [if_pos c, hp1]
            exact List.mem_append_right _ (List.mem_singleton.mpr rfl)
        · exact Or.inr ⟨r, hr2, hf⟩

theorem colScan_mem (data : List Row) (col : String) (acc : List ℕ) (i : ℕ) :
    i ∈ colScan data col acc ↔
      i ∈ acc ∨ ∃ r, data.get? i = some r ∧ rowFlagged data col r = true := by
  unfold colScan
  rw [colScan_fold_mem]
  constructor
  · rintro (h | ⟨r, hr, hf⟩)
    · exact Or.inl h
    · exact Or.inr ⟨r, by simpa [List.get?_eq_getElem?] using (List.mem_enum_iff_getElem?.mp hr), hf⟩
  · rintro (h | ⟨r, hr, hf⟩)
    · exact Or.inl h
    · exact Or.inr ⟨r, List.mem_enum_iff_getElem?.mpr (by simpa [List.get?_eq_getElem?] using hr), hf⟩

theorem outlierScan_fold_mem (data : List Row) (cols : List ColumnProfile)
    (acc : List ℕ) (i : ℕ) :
    (i ∈ cols.foldl (fun acc col => colScan data col.name acc) acc) ↔
      i ∈ acc ∨ ∃ p ∈ cols, ∃ r, data.get? i = some r ∧
        rowFlagged data p.name r = true := by
  induction cols generalizing acc with
  | nil => simp
  | cons c cs ih =>
    rw [List.foldl_cons, ih, colScan_mem]
    constructor
    · rintro ((h | ⟨r, hr, hf⟩) | ⟨p, hp, r, hr, hf⟩)
      · exact Or.inl h
      · exact Or.inr ⟨c, List.mem_cons_self _ _, r, hr, hf⟩
      · exact Or.inr ⟨p, List.mem_cons_of_mem _ hp, r, hr, hf⟩
    · rintro (h | ⟨p, hp, r, hr, hf⟩)
      · exact Or.inl (Or.inl h)
      · rcases List.mem_cons.mp hp with he | hp2
        · subst he
          exact Or.inl (Or.inr ⟨r, hr, hf⟩)
        · exact Or.inr ⟨p, hp2, r, hr, hf⟩

theorem outlierScan_mem (data : List Row) (cols : List ColumnProfile) (i : ℕ) :
    i ∈ outlierScan data cols ↔
      ∃ p ∈ cols, ∃ r, data.get? i = some r ∧ rowFlagged data p.name r = true := by
  unfold outlierScan
  rw [outlierScan_fold_mem]
  simp

/-- Claim C9 (amended: the output is additionally truncated to the first
50 flagged rows, so the exact characterisation needs the flagged count to
fit the cap; and the quartile arithmetic reading presumes every scanned
cell is a finite number): provided every cell of every Numeric non-ID
column is a finite number and at most 50 row indices are flagged in
total, `findOutliers` returns a row exactly when it occurs in the data
and, for some Numeric non-ID column, its value lies strictly outside
`[Q1 - 1.5 IQR, Q3 + 1.5 IQR]` with `Q1`/`Q3` taken at floor-indexed
positions `floor(n * 0.25)`/`floor(n * 0.75)` of the ascending sorted
column values. -/
theorem C9_outliers_amended (data : List Row) (profiles : List ColumnProfile)
    (H1 : ∀ p ∈ numericColsOf profiles, ∀ r ∈ data,
      isFinNumCell (rowGet r p.name) = true)
    (H2 : (outlierScan data (numericColsOf profiles)).length ≤ 50) (r : Row) :
    r ∈ findOutliers data profiles ↔
      r ∈ data ∧ ∃ p ∈ numericColsOf profiles, specOutlier data p.name r := by
  unfold findOutliers
  by_cases hz : (numericColsOf profiles).length = 0
  · rw [if_pos hz]
    have hempty : numericColsOf profiles = [] := List.length_eq_zero.mp hz
    simp [hempty]
  · rw [if_neg hz, List.take_of_length_le H2, List.mem_filterMap]
    constructor
    · rintro ⟨i, hi, hg⟩
      rw [outlierScan_mem] at hi
      rcases hi with ⟨p, hp, r2, hr2, hf⟩
      rw [hr2] at hg
      have he : r2 = r := by injection hg
      subst he
      have hrmem : r2 ∈ data := List.get?_mem hr2
      exact ⟨hrmem, p, hp,
        (rowFlagged_iff_specOutlier data p.name r2 (H1 p hp) hrmem).mp hf⟩
    · rintro ⟨hrmem, p, hp, hs⟩
      rcases List.mem_iff_get?.mp hrmem with ⟨i, hi⟩
      refine ⟨i, ?_, hi⟩
      rw [outlierScan_mem]
      exact ⟨p, hp, r, hi,
        (rowFlagged_iff_specOutlier data p.name r (H1 p hp) hrmem).mpr hs⟩

/-- Witness for `C9_outliers_amended`, on the claim's own examples: on
values 1, 2, 3, 4, 100 exactly the row holding 100 is returned, on
values 1, 2, 3, 4, 5 nothing is, and the amended characterisation holds
at the flagged row. -/
theorem C9_outliers_amended_witness :
    (findOutliers d9a [prof9] = [[("v", JsVal.num (.fin 100))]] ∧
        findOutliers d9b [prof9] = []) ∧
      ([("v", JsVal.num (.fin 100))] ∈ findOutliers d9a [prof9] ↔
        [("v", JsVal.num (.fin 100))] ∈ d9a ∧
          ∃ p ∈ numericColsOf [prof9],
            specOutlier d9a p.name [("v", JsVal.num (.fin 100))]) :=
  ⟨by constructor <;> with_unfolding_all decide,
    C9_outliers_amended d9a [prof9] (by with_unfolding_all decide)
      (by with_unfolding_all decide) _⟩

/-- Counterexample to claim C9 as stated: in the 52-row dataset, row 50
lies strictly outside column `c`'s IQR fence (a Numeric non-ID column),
yet `findOutliers` does not return it — the 50-row cap drops it. -/
theorem C9_counterexample :
    mkRow9 50 ∈ d9c ∧
      (∃ p ∈ numericColsOf profs9, specOutlier d9c p.name (mkRow9 50)) ∧
      mkRow9 50 ∉ findOutliers d9c profs9 := by
  refine ⟨by with_unfolding_all decide,
    ⟨⟨"c", .NUMERIC, .GENERAL, 0, 52, none, none, none, none, []⟩, ?_, ?_⟩,
    by with_unfolding_all decide⟩
  · with_unfolding_all decide
  · with_unfolding_all decide
